import Mathlib

/-!
Verification of the content-extraction / sync-back core of the `contentsync`
repository, via a shallow embedding of its JavaScript/TypeScript sources
into Lean.  The embedding covers:

* a DOM model mirroring the cheerio document tree (`DNode` / `DForest`),
  with the cheerio traversal operations the code uses (`text()`, `parent()`,
  `siblings()`, `find()`, CSS queries for the selector forms the code
  generates and configures);
* `SelectorBuilder` (metadata/selector-builder.ts);
* `ContentIdentifier` (parser/content-identifier.ts);
* `IdGenerator` (metadata/id-generator.ts), with the MD5 digest kept as an
  explicit function parameter (it is an external crypto primitive);
* `SmartExtractor.parseContent` / `convertToMarkdown` (smart-extractor.js);
* `SyncBack.parseMarkdownContent` / `updateHtmlElement` / `updateHtmlFile`
  (sync-back.js);
* `MarkdownConverter.cleanupMarkdown` (converter/markdown-converter.ts),
  with the JavaScript global-regex replaces implemented as equivalent
  single-pass scanners.

All definitions are executable and structurally recursive so concrete runs
reduce inside the kernel.
-/

namespace ContentSync

/-! ## Character and string utilities (JS string semantics, ASCII inputs) -/

/-- JavaScript `\s` for the ASCII range: space, tab, newline, carriage
return, vertical tab, form feed. -/
def isWSChar (c : Char) : Bool :=
  c = ' ' || c = '\t' || c = '\n' || c = '\r' || c = '\x0b' || c = '\x0c'

/-- ASCII lower-casing of one character (JS `toLowerCase` on ASCII). -/
def lowerChar (c : Char) : Char :=
  if 'A' ≤ c && c ≤ 'Z' then Char.ofNat (c.toNat + 32) else c

def lowerStr (s : String) : String := ⟨s.data.map lowerChar⟩

/-- `trim` on a character list: drop whitespace from both ends. -/
def trimChars (cs : List Char) : List Char :=
  ((cs.dropWhile isWSChar).reverse.dropWhile isWSChar).reverse

/-- JavaScript `String.prototype.trim` (ASCII whitespace). -/
def trimStr (s : String) : String := ⟨trimChars s.data⟩

/-- `a.startsWith b` on character lists. -/
def startsWithChars (cs pre : List Char) : Bool := pre.isPrefixOf cs

/-- JavaScript `String.prototype.startsWith`. -/
def startsWithStr (s pre : String) : Bool := startsWithChars s.data pre.data

/-- Substring occurrence test on character lists. -/
def infixChars (sub : List Char) : List Char → Bool
  | [] => sub.isPrefixOf []
  | c :: cs => sub.isPrefixOf (c :: cs) || infixChars sub cs

/-- JavaScript `String.prototype.includes` (substring test). -/
def includesStr (s sub : String) : Bool := infixChars sub.data s.data

/-- Split a character list at every occurrence of one separator character. -/
def splitOnChar (sep : Char) : List Char → List (List Char)
  | [] => [[]]
  | c :: cs =>
    match splitOnChar sep cs with
    | [] => [[]]
    | l :: ls => if c = sep then [] :: l :: ls else (c :: l) :: ls

/-- JavaScript `s.split('\n')` (a list of line strings). -/
def splitLinesStr (s : String) : List String :=
  (splitOnChar '\n' s.data).map fun l => ⟨l⟩

/-- Join strings with a separator (JavaScript `Array.prototype.join`). -/
def joinWith (sep : String) : List String → String
  | [] => ""
  | [s] => s
  | s :: rest => s ++ sep ++ joinWith sep rest

/-- JavaScript `str.split(/\s+/).filter(c => c.trim())`: the non-empty
whitespace-separated fields of a string. -/
def splitWSFields (s : String) : List String :=
  (((s.data.splitOnP fun c => isWSChar c).map fun l => (⟨l⟩ : String)).filter
    fun f => f ≠ "")

/-- Decimal digit character for `d % 10` (used to model JS number-to-string
interpolation). -/
def digitCh (d : Nat) : Char :=
  if d = 0 then '0' else if d = 1 then '1' else if d = 2 then '2'
  else if d = 3 then '3' else if d = 4 then '4' else if d = 5 then '5'
  else if d = 6 then '6' else if d = 7 then '7' else if d = 8 then '8'
  else '9'

/-- Decimal digit list of `n` (fuelled, fuel `n+1` always suffices). -/
def natChars : Nat → Nat → List Char
  | 0, _ => []
  | f + 1, n => if n < 10 then [digitCh n] else natChars f (n / 10) ++ [digitCh (n % 10)]

/-- Decimal rendering of a natural number (JS template `${n}`). -/
def natStr (n : Nat) : String := ⟨natChars (n + 1) n⟩

/-! ## DOM model

A cheerio document is a root node holding a forest of children; element
nodes carry a (lower-cased, as parse5 normalises) tag name, an attribute
list and a child forest; text nodes carry raw character data.  An element
is addressed by its path: the list of child indices from the root. -/

mutual
inductive DNode : Type where
  | elem : String → List (String × String) → DForest → DNode
  | txt : String → DNode
inductive DForest : Type where
  | fnil : DForest
  | fcons : DNode → DForest → DForest
end

/-- A document: the forest under the cheerio root node. -/
abbrev Doc := DForest

/-- An element address: child indices from the document root. -/
abbrev Path := List Nat

/-- Attribute lookup on an element node (`$el.attr(name)`). -/
def attrOf (n : DNode) (name : String) : Option String :=
  match n with
  | .txt _ => none
  | .elem _ attrs _ => (attrs.find? fun a => a.1 = name).map Prod.snd

/-- Attribute with default `''` (the `|| ''` idiom in the sources). -/
def attrD (n : DNode) (name : String) : String := (attrOf n name).getD ""

/-- Tag name of a node (`''` for text nodes). -/
def tagOf (n : DNode) : String :=
  match n with
  | .txt _ => ""
  | .elem t _ _ => t

/-- Class list of an element: the `class` attribute split on whitespace,
empty entries dropped (as every call site does). -/
def classesOf (n : DNode) : List String := splitWSFields (attrD n "class")

/-- Node lookup inside a forest: index of the child, then remaining path. -/
def getGo : DForest → Nat → List Nat → Option DNode
  | .fnil, _, _ => none
  | .fcons n _, 0, [] => some n
  | .fcons (.elem _ _ f) _, 0, j :: p => getGo f j p
  | .fcons _ _, 0, _ :: _ => none
  | .fcons _ rest, i + 1, p => getGo rest i p

/-- The `i`-th child node of a forest. -/
def fget : DForest → Nat → Option DNode
  | .fnil, _ => none
  | .fcons n _, 0 => some n
  | .fcons _ rest, i + 1 => fget rest i

/-- Node at a path in a document (`none` for the root path `[]`). -/
def docGet (d : Doc) : Path → Option DNode
  | [] => none
  | i :: p => getGo d i p

/-- Concatenated text content of a forest (cheerio `.text()` semantics:
all descendant text nodes, in document order). -/
def textGo : DForest → String
  | .fnil => ""
  | .fcons (.txt s) rest => s ++ textGo rest
  | .fcons (.elem _ _ f) rest => textGo f ++ textGo rest

/-- `$node.text()`. -/
def textOfNode (n : DNode) : String :=
  match n with
  | .txt s => s
  | .elem _ _ f => textGo f

/-- `.text()` of the element at a path (empty if the path is dangling). -/
def textAt (d : Doc) (p : Path) : String :=
  match docGet d p with
  | some n => textOfNode n
  | none => ""

/-- Paths of every element of a forest, in document (preorder) order. -/
def pathsGo : DForest → Path → Nat → List Path
  | .fnil, _, _ => []
  | .fcons (.txt _) rest, p, i => pathsGo rest p (i + 1)
  | .fcons (.elem _ _ f) rest, p, i =>
    (p ++ [i]) :: (pathsGo f (p ++ [i]) 0 ++ pathsGo rest p (i + 1))

/-- All element paths of a document, in document order. -/
def docPaths (d : Doc) : List Path := pathsGo d [] 0

/-- cheerio `.parent()` (≥ 1.0.0-rc.10): the parent element, excluding the
synthetic root node, so the top-level elements have no parent. -/
def parentPath (p : Path) : Option Path :=
  match p with
  | [] => none
  | [_] => none
  | i :: p' => some (i :: p').dropLast

/-- The forest of siblings of the element at `p` (its parent's children,
or the root forest for a top-level element). -/
def siblingForest (d : Doc) (p : Path) : DForest :=
  match p.dropLast with
  | [] => d
  | pp =>
    match docGet d pp with
    | some (.elem _ _ f) => f
    | _ => .fnil

/-- Indices (into the parent's child list) of element children satisfying
a tag predicate, in order. -/
def elemIdxGo (pr : String → Bool) : DForest → Nat → List Nat
  | .fnil, _ => []
  | .fcons (.txt _) rest, i => elemIdxGo pr rest (i + 1)
  | .fcons (.elem t _ _) rest, i =>
    if pr t then i :: elemIdxGo pr rest (i + 1) else elemIdxGo pr rest (i + 1)

/-- cheerio `.siblings(tag)`: same-parent element nodes with the given tag
name, excluding the node itself. -/
def siblingsSameTag (d : Doc) (p : Path) (tag : String) : List Nat :=
  (elemIdxGo (fun t => t = tag) (siblingForest d p) 0).filter
    fun i => i ≠ p.getLastD 0

/-- `Array.prototype.indexOf` on a list of indices: 0-based position, `-1`
when absent (cheerio `.index(needle)` is exactly this). -/
def jsIndexOf (l : List Nat) (x : Nat) : Int :=
  match l.findIdx? fun i => i = x with
  | some k => (k : Int)
  | none => -1

/-! ## CSS selectors

The code generates and configures selectors of the forms `#id`,
`tag`, `tag.cls₁.cls₂`, `.cls`, `[attr="value"]`, `tag:nth-child(k)`, and
child-combinator chains `a > b > c` of those.  The matcher below implements
standard CSS semantics for exactly these forms. -/

/-- A simple (single-compound) selector. -/
structure SimpleSel where
  tag : Option String
  id : Option String
  classes : List String
  attrEq : Option (String × String)
  nthChild : Option Nat
deriving Repr, DecidableEq

/-- Parse the text of one `[name="value"]` attribute selector. -/
def parseAttrSel (cs : List Char) : Option (String × String) :=
  let inner := (cs.takeWhile fun c => c ≠ ']')
  let name := inner.takeWhile fun c => c ≠ '='
  let rest := inner.dropWhile fun c => c ≠ '='
  match rest with
  | '=' :: '"' :: v => some (⟨name⟩, ⟨v.takeWhile fun c => c ≠ '"'⟩)
  | _ => none

/-- Parse `:nth-child(k)` suffix, returning the base and the index. -/
def splitNth (s : String) : String × Option Nat :=
  let marker := ":nth-child(".data
  let rec go (seen : List Char) (rest : List Char) : String × Option Nat :=
    match rest with
    | [] => (s, none)
    | c :: rest' =>
      if marker.isPrefixOf (c :: rest') then
        let digits := ((c :: rest').drop marker.length).takeWhile Char.isDigit
        (⟨seen.reverse⟩, some (⟨digits⟩ : String).toNat!)
      else go (c :: seen) rest'
  go [] s.data

/-- Parse one simple selector string. -/
def parseSimple (s : String) : SimpleSel :=
  match s.data with
  | '#' :: rest => ⟨none, some ⟨rest⟩, [], none, none⟩
  | '[' :: rest => ⟨none, none, [], parseAttrSel rest, none⟩
  | _ =>
    let (base, nth) := splitNth s
    match splitOnChar '.' base.data with
    | [] => ⟨none, none, [], none, nth⟩
    | t :: cls =>
      let tagPart : Option String := if t = [] then none else some ⟨t⟩
      ⟨tagPart, none, cls.map fun c => ⟨c⟩, none, nth⟩

/-- Split a selector string on the child combinator `" > "`. -/
def splitChain (s : String) : List String :=
  let rec go (cur : List Char) (rest : List Char) : List String :=
    match rest with
    | [] => [⟨cur.reverse⟩]
    | ' ' :: '>' :: ' ' :: rest' => (⟨cur.reverse⟩ : String) :: go [] rest'
    | c :: rest' => go (c :: cur) rest'
  go [] s.data

/-- 1-based position of the element at `p` among its parent's element
children (for `:nth-child`). -/
def nthChildPos (d : Doc) (p : Path) : Nat :=
  match jsIndexOf (elemIdxGo (fun _ => true) (siblingForest d p) 0) (p.getLastD 0) with
  | .ofNat k => k + 1
  | _ => 0

/-- Does the element at `p` match one simple selector? -/
def matchesSimple (d : Doc) (p : Path) (sel : SimpleSel) : Bool :=
  match docGet d p with
  | some (.elem t attrs f) =>
    (match sel.tag with | none => true | some tg => t = tg) &&
    (match sel.id with
     | none => true
     | some i => attrOf (.elem t attrs f) "id" = some i) &&
    sel.classes.all (fun c => (classesOf (.elem t attrs f)).contains c) &&
    (match sel.attrEq with
     | none => true
     | some (a, v) => attrOf (.elem t attrs f) a = some v) &&
    (match sel.nthChild with
     | none => true
     | some k => nthChildPos d p = k)
  | _ => false

/-- Does the element at `p` match a parsed child-combinator chain
(given reversed: subject selector first)? -/
def matchesChainRev (d : Doc) : List SimpleSel → Path → Bool
  | [], _ => false
  | [sel], p => matchesSimple d p sel
  | sel :: rest, p =>
    matchesSimple d p sel &&
    (match parentPath p with
     | none => false
     | some pp => matchesChainRev d rest pp)

/-- Does the element at `p` match a selector string? (cheerio `.is`) -/
def matchesSel (d : Doc) (p : Path) (s : String) : Bool :=
  matchesChainRev d ((splitChain s).map parseSimple).reverse p

/-- cheerio `$(selector)`: all matching element paths in document order. -/
def queryAll (d : Doc) (s : String) : List Path :=
  (docPaths d).filter fun p => matchesSel d p s

/-- `$(selector).first()` as an optional path. -/
def queryFirst (d : Doc) (s : String) : Option Path := (queryAll d s).head?

/-- Build a forest from a list of nodes (construction convenience). -/
def ofList : List DNode → DForest
  | [] => .fnil
  | n :: ns => .fcons n (ofList ns)

/-- Element-node construction convenience. -/
def el (t : String) (attrs : List (String × String)) (kids : List DNode) : DNode :=
  .elem t attrs (ofList kids)

/-! ## SelectorBuilder (src/metadata/selector-builder.ts) -/

/-- The `SelectorInfo` record returned by every selector strategy.  The
`reliability` confidence score is kept in hundredths so that it stays in
decidable integer arithmetic (source `0.95` is `95` here, `0.8` is `80`,
and so on). -/
structure SelectorInfo where
  cssSelector : String
  xpath : Option String
  specificity : Nat
  reliability : Nat
deriving Repr, DecidableEq

/-- `isValidId`: starts with a letter; letters, digits, hyphen, underscore
only (regex `^[a-zA-Z][a-zA-Z0-9_-]*$`). -/
def isValidIdStr (id : String) : Bool :=
  match id.data with
  | [] => false
  | c :: rest =>
    c.isAlpha && rest.all fun x => x.isAlpha || x.isDigit || x = '-' || x = '_'

/-- `isGenericClass`: the fixed deny-list of generic class names. -/
def isGenericClass (className : String) : Bool :=
  ["container", "wrapper", "content", "main", "section", "div",
   "clear", "clearfix", "hidden", "visible", "active", "inactive",
   "left", "right", "center", "top", "bottom", "middle",
   "small", "medium", "large", "big", "tiny",
   "red", "blue", "green", "yellow", "black", "white",
   "bold", "italic", "underline", "strike",
   "margin", "padding", "border", "background"].contains (lowerStr className)

/-- `findUniqueClasses`: keep classes that are not generic and occur at
most 3 times in the whole document (`$root.find('.cls').length <= 3`). -/
def findUniqueClasses (d : Doc) (classes : List String) : List String :=
  classes.filter fun cls =>
    !isGenericClass cls && (queryAll d ("." ++ cls)).length ≤ 3

/-- The empty `SelectorInfo` a failed strategy returns. -/
def emptySelInfo : SelectorInfo := ⟨"", none, 0, 0⟩

/-- `buildIdSelector`: `#id` when the element has a syntactically valid id. -/
def buildIdSelector (d : Doc) (p : Path) : SelectorInfo :=
  match (docGet d p).bind fun n => attrOf n "id" with
  | some id =>
    if id ≠ "" && isValidIdStr id then ⟨"#" ++ id, none, 100, 95⟩
    else emptySelInfo
  | none => emptySelInfo

/-- `buildClassSelector`: `tag.cls…` from the unique non-generic classes. -/
def buildClassSelector (d : Doc) (p : Path) : SelectorInfo :=
  match docGet d p with
  | some n =>
    match attrOf n "class" with
    | none => emptySelInfo
    | some className =>
      if className = "" then emptySelInfo
      else
        let classes := splitWSFields className
        if classes = [] then emptySelInfo
        else
          let uniqueClasses := findUniqueClasses d classes
          if uniqueClasses = [] then emptySelInfo
          else
            ⟨lowerStr (tagOf n) ++ "." ++ joinWith "." uniqueClasses, none,
              10 + uniqueClasses.length, 80⟩
  | none => emptySelInfo

/-- `buildAttributeSelector`: first truthy data attribute from the fixed
list, then the `role` attribute. -/
def buildAttributeSelector (d : Doc) (p : Path) : SelectorInfo :=
  match docGet d p with
  | some n =>
    let dataAttrs := ["data-testid", "data-id", "data-content", "data-component"]
    match dataAttrs.find? fun a => attrD n a ≠ "" with
    | some a => ⟨"[" ++ a ++ "=\"" ++ attrD n a ++ "\"]", none, 10, 90⟩
    | none =>
      if attrD n "role" ≠ "" then
        ⟨"[role=\"" ++ attrD n "role" ++ "\"]", none, 10, 70⟩
      else emptySelInfo
  | none => emptySelInfo

/-- The tag part of one `getElementPath` level:
`current.prop('tagName')?.toLowerCase() || 'div'`. -/
def pathTag18 (d : Doc) (q : Path) : String :=
  if lowerStr (tagOf ((docGet d q).getD (.txt ""))) = "" then "div"
  else lowerStr (tagOf ((docGet d q).getD (.txt "")))

/-- Tag plus optional `.firstClass` of one `getElementPath` level. -/
def pathBase18 (d : Doc) (q : Path) : String :=
  match attrOf ((docGet d q).getD (.txt "")) "class" with
  | none => pathTag18 d q
  | some className =>
    match splitWSFields className with
    | [] => pathTag18 d q
    | c :: _ => pathTag18 d q ++ "." ++ c

/-- One level of `getElementPath`: the base, and — when the element has
same-tag siblings — `:nth-child(k)` with
`k = siblings.index(current) + 1` (cheerio `.siblings()` excludes the
element itself, so `.index` is `-1` and `k` is `0`). -/
def pathSegment18 (d : Doc) (q : Path) : String :=
  if (siblingsSameTag d q (pathTag18 d q)).length > 0 then
    pathBase18 d q ++ ":nth-child(" ++
      natStr (jsIndexOf (siblingsSameTag d q (pathTag18 d q))
        (q.getLastD 0) + 1).toNat ++ ")"
  else pathBase18 d q

/-- The `getElementPath` loop, from the element upward (argument is the
reversed path); cheerio `.parent()` stops above the top-level element. -/
def upSegs18 (d : Doc) : List Nat → List String
  | [] => []
  | i :: rp' => pathSegment18 d (i :: rp').reverse :: upSegs18 d rp'

/-- `getElementPath`: ancestor segments joined with `" > "`. -/
def getElementPath18 (d : Doc) (p : Path) : String :=
  joinWith " > " (upSegs18 d p.reverse).reverse

/-- The `buildXPath` sibling index at `q`: `indexOf` of the element within
the parent's same-tag element children (a list that contains the element
itself), plus one. -/
def xpathIndex (d : Doc) (q : Path) : Nat :=
  let n := (docGet d q).getD (.txt "")
  let siblings := elemIdxGo (fun t => t = tagOf n) (siblingForest d q) 0
  (jsIndexOf siblings (q.getLastD 0) + 1).toNat

/-- One `buildXPath` step at `q` (non-root parent): `/tag[k]` with `k` the
1-based position among the parent's same-tag element children. -/
def xpathSegment (d : Doc) (q : Path) : String :=
  let n := (docGet d q).getD (.txt "")
  let tg := if lowerStr (tagOf n) = "" then "div" else lowerStr (tagOf n)
  "/" ++ tg ++ "[" ++ natStr (xpathIndex d q) ++ "]"

/-- The `buildXPath` loop (argument is the reversed path); at a top-level
element the parent is the root node and the loop emits `/tag` and stops. -/
def xpathSegs (d : Doc) : List Nat → List String
  | [] => []
  | [i] =>
    let n := (docGet d [i]).getD (.txt "")
    ["/" ++ (if lowerStr (tagOf n) = "" then "div" else lowerStr (tagOf n))]
  | i :: rp' => xpathSegment d (i :: rp').reverse :: xpathSegs d rp'

/-- `buildXPath`: segments prepended bottom-up, i.e. concatenated
top-down. -/
def buildXPath (d : Doc) (p : Path) : String :=
  joinWith "" (xpathSegs d p.reverse).reverse

/-- `buildPathSelector`: the structural-path strategy (always non-empty). -/
def buildPathSelector (d : Doc) (p : Path) : SelectorInfo :=
  ⟨getElementPath18 d p, some (buildXPath d p), 1, 60⟩

/-- First strategy result with a non-empty `cssSelector` (the strategy
loop of `buildSelector`). -/
def firstNonEmptySel (fallback : SelectorInfo) : List SelectorInfo → SelectorInfo
  | [] => fallback
  | s :: rest => if s.cssSelector ≠ "" then s else firstNonEmptySel fallback rest

/-- `buildSelector`: try the strategies in source order — id, class,
attribute, path — and return the first whose `cssSelector` is non-empty,
falling back to the path strategy. -/
def buildSelector (d : Doc) (p : Path) : SelectorInfo :=
  firstNonEmptySel (buildPathSelector d p)
    [buildIdSelector d p, buildClassSelector d p,
     buildAttributeSelector d p, buildPathSelector d p]

/-! ## ContentIdentifier (src/parser/content-identifier.ts) -/

/-- The content-selection configuration slice the identifier uses. -/
structure ContentSelectionConfig where
  contentSelectors : List String
  excludeSelectors : List String
  includeNavigation : Bool
deriving Repr

/-- The `DEFAULT_CONFIG` content-selection values (src/config/schema.ts). -/
def defaultSelectionConfig : ContentSelectionConfig :=
  ⟨["main", "[role=\"main\"]", "article", ".content", ".post-content"],
   ["nav", "header", "footer", ".navigation", ".sidebar",
    "[role=\"navigation\"]", ".ads", ".social-share"],
   false⟩

/-- Count of descendant elements of a forest whose tag satisfies `pr`
(cheerio `$el.find(sel).length` for tag unions, `*`, etc.). -/
def countTagGo (pr : String → Bool) : DForest → Nat
  | .fnil => 0
  | .fcons (.txt _) rest => countTagGo pr rest
  | .fcons (.elem t _ f) rest =>
    (if pr t then 1 else 0) + countTagGo pr f + countTagGo pr rest

/-- Descendant-element count under the element at `p`. -/
def countDesc (d : Doc) (p : Path) (pr : String → Bool) : Nat :=
  match docGet d p with
  | some (.elem _ _ f) => countTagGo pr f
  | _ => 0

/-- `isNavigationElement` (content-identifier.ts): tag `nav`, role
`navigation`, a navigation keyword inside class or id, or a configured
exclude selector. -/
def isNavElemCI (cfg : ContentSelectionConfig) (d : Doc) (p : Path) : Bool :=
  let n := (docGet d p).getD (.txt "")
  let navClasses := ["nav", "navigation", "menu", "navbar", "header",
    "footer", "sidebar"]
  lowerStr (tagOf n) = "nav" ||
  attrD n "role" = "navigation" ||
  navClasses.any (fun nc => includesStr (lowerStr (attrD n "class")) nc) ||
  navClasses.any (fun nc => includesStr (lowerStr (attrD n "id")) nc) ||
  cfg.excludeSelectors.any (fun ex => matchesSel d p ex)

/-- `calculateContentScore`: semantic-tag base weight, text-length buckets,
heading and paragraph counts, and the navigation / small-content /
link-density penalties, clamped at zero. -/
def calculateContentScore (cfg : ContentSelectionConfig) (d : Doc) (p : Path) : Int :=
  let n := (docGet d p).getD (.txt "")
  let base : Int :=
    match lowerStr (tagOf n) with
    | "main" => 100
    | "article" => 80
    | "section" => 60
    | "div" => 20
    | _ => 0
  let textLength : Int := (trimStr (textOfNode n)).length
  let lengthScore : Int :=
    if textLength > 1000 then 50
    else if textLength > 500 then 30
    else if textLength > 100 then 10 else 0
  let headingCount : Int :=
    countDesc d p fun t => ["h1", "h2", "h3", "h4", "h5", "h6"].contains t
  let paragraphCount : Int := countDesc d p fun t => t = "p"
  let navPenalty : Int := if isNavElemCI cfg d p then 100 else 0
  let smallPenalty : Int := if textLength < 50 then 50 else 0
  let linkCount : Int := countDesc d p fun t => t = "a"
  let totalElements : Int := countDesc d p fun _ => true
  let linkPenalty : Int :=
    if totalElements > 0 && 2 * linkCount > totalElements then 30 else 0
  max 0 (base + lengthScore + headingCount * 10 + paragraphCount * 5 -
    navPenalty - smallPenalty - linkPenalty)

/-- `getElementType`. -/
def getElementType (selector : String) : String :=
  if selector = "main" then "main"
  else if selector = "article" then "article"
  else if selector = "section" then "section"
  else "div"

/-- A `ContentArea`: matched element (by path), originating selector,
score and element type. -/
structure ContentArea where
  path : Path
  selector : String
  score : Int
  atype : String
deriving Repr, DecidableEq

/-- `areElementsOverlapping`: one contains the other (`$a.find($b)`), or
they are the same element (`$a.is($b)`); on paths: strict prefix either
way, or equality. -/
def areElementsOverlapping (a b : Path) : Bool :=
  (a.isPrefixOf b && a ≠ b) || (b.isPrefixOf a && b ≠ a) || a = b

/-- The `filterOverlappingAreas` loop: accept an area only when it
overlaps no already-accepted area. -/
def filterOverlapGo : List ContentArea → List ContentArea → List ContentArea
  | [], acc => acc
  | a :: rest, acc =>
    if acc.any (fun e => areElementsOverlapping a.path e.path) then
      filterOverlapGo rest acc
    else filterOverlapGo rest (acc ++ [a])

/-- `filterOverlappingAreas`. -/
def filterOverlappingAreas (areas : List ContentArea) : List ContentArea :=
  filterOverlapGo areas []

/-- Stable insertion preserving descending score (the effect of the JS
`sort((a, b) => b.score - a.score)`). -/
def insertByScore (a : ContentArea) : List ContentArea → List ContentArea
  | [] => [a]
  | b :: rest =>
    if a.score > b.score then a :: b :: rest else b :: insertByScore a rest

/-- Sort areas by score, highest first. -/
def sortByScoreDesc : List ContentArea → List ContentArea
  | [] => []
  | a :: rest => insertByScore a (sortByScoreDesc rest)

/-- Remove every element with one of the given tags (and its subtree):
`$('script, style, noscript').remove()` etc. -/
def removeTagsGo (tags : List String) : DForest → DForest
  | .fnil => .fnil
  | .fcons (.txt s) rest => .fcons (.txt s) (removeTagsGo tags rest)
  | .fcons (.elem t a f) rest =>
    if tags.contains t then removeTagsGo tags rest
    else .fcons (.elem t a (removeTagsGo tags f)) (removeTagsGo tags rest)

/-- `findContentAreas`: strip `script`/`style`/`noscript`, score every
element matched by a configured content selector, keep positive scores,
sort descending, and filter overlapping areas. -/
def findContentAreas (cfg : ContentSelectionConfig) (d : Doc) : List ContentArea :=
  let d' := removeTagsGo ["script", "style", "noscript"] d
  let collected := cfg.contentSelectors.flatMap fun sel =>
    (queryAll d' sel).filterMap fun p =>
      let score := calculateContentScore cfg d' p
      if score > 0 then some ⟨p, sel, score, getElementType sel⟩ else none
  filterOverlappingAreas (sortByScoreDesc collected)

/-- The content-region stage of `ExtractionOrchestrator.parsePageContent`
(extraction-orchestrator.ts lines 256–266): an empty area list is a thrown
error; otherwise processing continues with the found areas. -/
def parsePageContentRegions (cfg : ContentSelectionConfig) (d : Doc) :
    Except String (List ContentArea) :=
  let contentAreas := findContentAreas cfg d
  if contentAreas = [] then .error "No content areas found on page"
  else .ok contentAreas

/-! ## IdGenerator (src/metadata/id-generator.ts)

The MD5 digest is an external crypto primitive; it enters the embedding as
an explicit function parameter `md5hex` mapping a string to its hex digest,
of which the generator keeps the first 8 characters. -/

/-- `createHash('md5').update(s).digest('hex').substring(0, 8)`. -/
def hash8 (md5hex : String → String) (s : String) : String :=
  ⟨(md5hex s).data.take 8⟩

/-- `generateContentId`: hash of `trim(text)-contentType-url`, plus the
incremented run counter; the optional selector argument is unused by the
source.  Returns the id and the new counter value. -/
def generateContentId (md5hex : String → String)
    (text contentType url : String) (_selOpt : Option String)
    (counter : Nat) : String × Nat :=
  let content := trimStr text ++ "-" ++ contentType ++ "-" ++ url
  let hash := hash8 md5hex content
  let counter' := counter + 1
  ("content-" ++ hash ++ "-" ++ natStr counter', counter')

/-- The id sequence produced by one orchestrator parse pass over a page's
extracted `(text, type)` units (extraction-orchestrator.ts lines 270–291),
threading the singleton counter. -/
def runGenerateIds (md5hex : String → String)
    (units : List (String × String)) (url : String) (counter : Nat) :
    List String × Nat :=
  match units with
  | [] => ([], counter)
  | (t, ty) :: rest =>
    let (id, c') := generateContentId md5hex t ty url none counter
    let (ids, c'') := runGenerateIds md5hex rest url c'
    (id :: ids, c'')

/-! ## SmartExtractor (smart-extractor.js) -/

/-- One extracted content piece of the smart extractor. -/
structure CItem where
  ctype : String
  level : Nat
  text : String
  items : List String
  tag : String
  selector : String
deriving Repr, DecidableEq

/-- The tags `parseContent` removes up front. -/
def smartRemovedTags : List String :=
  ["script", "style", "noscript", "iframe", "embed", "object", "applet",
   "form", "nav", "header", "footer", "aside"]

/-- The content-area candidate selectors of `parseContent`, in order. -/
def smartContentSelectors : List String :=
  ["main", "[role=\"main\"]", "article", ".content", ".post-content",
   ".main-content", "#content", "#main", ".container", ".wrapper",
   ".page-content", ".site-content", "#root", "#app"]

/-- The selector loop of `parseContent`: the first selector with a match
yields its first element; otherwise fall back to `$('body')`. -/
def pickContentArea (d : Doc) : Option Path :=
  match smartContentSelectors.findSome? fun sel => queryFirst d sel with
  | some p => some p
  | none => queryFirst d "body"

/-- `isNavigationElement` (smart-extractor.js): role `navigation` or a
navigation keyword inside the class or id attribute (lower-cased). -/
def isNavElem13 (n : DNode) : Bool :=
  let navKeywords := ["nav", "navigation", "menu", "navbar", "header",
    "footer", "sidebar", "breadcrumb"]
  attrD n "role" = "navigation" ||
  navKeywords.any fun k =>
    includesStr (lowerStr (attrD n "class")) k ||
    includesStr (lowerStr (attrD n "id")) k

/-- `classes.split(' ').filter(c => c.trim())` (single-space split). -/
def splitClasses13 (s : String) : List String :=
  ((splitOnChar ' ' s.data).map fun l => (⟨l⟩ : String)).filter
    fun c => trimStr c ≠ ""

/-- One segment of the smart extractor's `getElementPath`: `#id` (with
early break), `tag.firstClass`, or `tag`; a text node renders as the empty
segment (JavaScript `[undefined].join` yields `''`). -/
def seg13 (n : DNode) : String :=
  match n with
  | .txt _ => ""
  | .elem t _ _ =>
    if attrD n "id" ≠ "" then "#" ++ attrD n "id"
    else
      match splitClasses13 (attrD n "class") with
      | [] => t
      | c :: _ => t ++ "." ++ c

/-- The `getElementPath` walk of smart-extractor.js (argument reversed):
stop before `body`, break after an `#id` segment. -/
def upSegs13 (d : Doc) : List Nat → List String
  | [] => []
  | i :: rp' =>
    match docGet d ((i :: rp').reverse) with
    | none => []
    | some n =>
      if tagOf n = "body" then []
      else if attrD n "id" ≠ "" then [seg13 n]
      else seg13 n :: upSegs13 d rp'

/-- `getElementPath` (smart-extractor.js). -/
def getElementPath13 (d : Doc) (p : Path) : String :=
  joinWith " > " (upSegs13 d p.reverse).reverse

/-- `generateSelector` (smart-extractor.js): id, then a content-looking
class, then the structural path, then `tag:nth-child(k)`, then the tag. -/
def generateSelector13 (d : Doc) (p : Path) : String :=
  let n := (docGet d p).getD (.txt "")
  let tagName := match n with | .txt _ => "undefined" | .elem t _ _ => t
  if attrD n "id" ≠ "" then "#" ++ attrD n "id"
  else
    let classAttr := attrD n "class"
    let contentClasses :=
      if classAttr ≠ "" then
        (splitClasses13 classAttr).filter fun c =>
          !includesStr c "nav" && !includesStr c "menu" &&
          !includesStr c "header" && !includesStr c "footer" &&
          !includesStr c "sidebar"
      else []
    match contentClasses with
    | c :: _ => tagName ++ "." ++ c
    | [] =>
      let path := getElementPath13 d p
      if path ≠ "" then path
      else
        match parentPath p with
        | some _ =>
          let pr := match n with | .txt _ => fun _ => true | .elem t _ _ => (· = t)
          let siblings := elemIdxGo pr (siblingForest d p) 0
          tagName ++ ":nth-child(" ++
            natStr (jsIndexOf siblings (p.getLastD 0) + 1).toNat ++ ")"
        | none => tagName

/-- Trimmed texts of the descendant `li` elements (document order,
empty texts dropped), as collected for `ul`/`ol` items. -/
def liTextsGo : DForest → List String
  | .fnil => []
  | .fcons (.txt _) rest => liTextsGo rest
  | .fcons (.elem t _ f) rest =>
    (if t = "li" && trimStr (textGo f) ≠ "" then [trimStr (textGo f)] else []) ++
    (liTextsGo f ++ liTextsGo rest)

/-- Does a forest contain a descendant of an extractable type
(`$child.find('p, h1, …, code').length > 0`)? -/
def hasExtractedKids (f : DForest) : Bool :=
  countTagGo (fun t => ["p", "h1", "h2", "h3", "h4", "h5", "h6", "ul",
    "ol", "blockquote", "pre", "code"].contains t) f > 0

/-- `extractContentInOrder`: walk the children of the content area in
document order, emitting typed content items and recursing into `div` and
unknown containers. -/
def extractGo (d : Doc) : DForest → Path → Nat → List CItem
  | .fnil, _, _ => []
  | .fcons (.txt s) rest, p, i =>
    let text := trimStr s
    (if text ≠ "" && text.length > 10 then
      [⟨"text", 0, text, [], "text", generateSelector13 d (p ++ [i])⟩]
     else []) ++ extractGo d rest p (i + 1)
  | .fcons (.elem t attrs f) rest, p, i =>
    let n := DNode.elem t attrs f
    let q := p ++ [i]
    let here : List CItem :=
      if isNavElem13 n then []
      else if ["h1", "h2", "h3", "h4", "h5", "h6"].contains t then
        let text := trimStr (textGo f)
        if text ≠ "" then
          [⟨"heading", (⟨(t.data.drop 1)⟩ : String).toNat!, text, [], t,
            generateSelector13 d q⟩]
        else []
      else if t = "p" then
        let text := trimStr (textGo f)
        if text ≠ "" then [⟨"paragraph", 0, text, [], "p", generateSelector13 d q⟩]
        else []
      else if t = "ul" || t = "ol" then
        let items := liTextsGo f
        if items ≠ [] then [⟨"list", 0, "", items, t, generateSelector13 d q⟩]
        else []
      else if t = "blockquote" then
        let text := trimStr (textGo f)
        if text ≠ "" then
          [⟨"blockquote", 0, text, [], "blockquote", generateSelector13 d q⟩]
        else []
      else if t = "pre" || t = "code" then
        let text := trimStr (textGo f)
        if text ≠ "" then [⟨"code", 0, text, [], t, generateSelector13 d q⟩]
        else []
      else if t = "div" then
        let divText := trimStr (textGo f)
        if divText.length > 50 && !hasExtractedKids f then
          [⟨"div", 0, divText, [], "div", generateSelector13 d q⟩]
        else []
      else []
    let recur : List CItem :=
      if isNavElem13 n then []
      else if ["h1", "h2", "h3", "h4", "h5", "h6", "p", "ul", "ol",
          "blockquote", "pre", "code"].contains t then []
      else extractGo d f q 0
    here ++ recur ++ extractGo d rest p (i + 1)

/-- `parseContent` (smart-extractor.js): strip non-content tags, pick the
content area, and extract its content in order. -/
def parseContent13 (d : Doc) : List CItem :=
  let d' := removeTagsGo smartRemovedTags d
  match pickContentArea d' with
  | some p =>
    match docGet d' p with
    | some (.elem _ _ f) => extractGo d' f p 0
    | _ => []
  | none => []

/-- `'#'.repeat(level)`. -/
def hashes (level : Nat) : String := ⟨List.replicate level '#'⟩

/-- Markdown rendering of one content item (the `switch` of
`convertToMarkdown`). -/
def itemMarkdown (item : CItem) : String :=
  (if item.selector ≠ "" then "<!-- Selector: " ++ item.selector ++ " -->\n"
   else "") ++
  (if item.ctype = "heading" then hashes item.level ++ " " ++ item.text ++ "\n\n"
   else if item.ctype = "paragraph" then item.text ++ "\n\n"
   else if item.ctype = "text" then item.text ++ "\n\n"
   else if item.ctype = "list" then
     joinWith "" (item.items.map fun it => "- " ++ it ++ "\n") ++ "\n"
   else if item.ctype = "blockquote" then "> " ++ item.text ++ "\n\n"
   else if item.ctype = "code" then
     if item.tag = "pre" then "```\n" ++ item.text ++ "\n```\n\n"
     else "`" ++ item.text ++ "`\n\n"
   else if item.ctype = "div" then item.text ++ "\n\n"
   else "")

/-- `convertToMarkdown` (smart-extractor.js): title heading, metadata
comments, then each item preceded by its selector comment. -/
def convertToMarkdown13 (content : List CItem) (title method siteUrl now : String) :
    String :=
  "# " ++ title ++ "\n\n" ++
  "<!-- Content extracted from: " ++ siteUrl ++ " -->\n" ++
  "<!-- Extracted at: " ++ now ++ " -->\n" ++
  "<!-- Method: " ++ method ++ " " ++
    (if method = "HTTP" then "(no browser)" else "(Puppeteer)") ++ " -->\n\n" ++
  joinWith "" (content.map itemMarkdown)

/-- `extractTitle`: `$('title').text().trim() || 'Untitled Page'`. -/
def extractTitle (d : Doc) : String :=
  let t := trimStr (joinWith "" ((queryAll d "title").map fun p => textAt d p))
  if t = "" then "Untitled Page" else t

/-! ## SyncBack (sync-back.js) -/

/-- A parsed markdown content block. -/
structure SyncBlock where
  selector : String
  content : String
  btype : String
deriving Repr, DecidableEq

/-- Characters after the first occurrence of `pat`, if any. -/
def findSubAfter (pat : List Char) : List Char → Option (List Char)
  | [] => if pat.isPrefixOf ([] : List Char) then some [] else none
  | c :: cs =>
    if pat.isPrefixOf (c :: cs) then some ((c :: cs).drop pat.length)
    else findSubAfter pat cs

/-- Characters before the last occurrence of `pat`, if any. -/
def beforeLast (pat : List Char) (cs : List Char) : Option (List Char) :=
  (findSubAfter pat.reverse cs.reverse).map List.reverse

/-- `line.match(/<!-- Selector: (.+) -->/)?.[1]`: the (greedy) capture
between the first `"<!-- Selector: "` and the last `" -->"` after it,
non-empty. -/
def matchSelectorComment (line : String) : Option String :=
  match findSubAfter "<!-- Selector: ".data line.data with
  | none => none
  | some post =>
    match beforeLast " -->".data post with
    | none => none
    | some mid => if mid = [] then none else some ⟨mid⟩

/-- `detectContentType`: leading characters of the joined block text. -/
def detectContentType (content : List String) : String :=
  let text := joinWith "\n" content
  if startsWithStr text "#" then "heading"
  else if startsWithStr text "- " || startsWithStr text "* " then "list"
  else if startsWithStr text "> " then "blockquote"
  else if startsWithStr text "```" then "code"
  else "paragraph"

/-- Parser state of `parseMarkdownContent`. -/
structure PState where
  cur : Option String
  content : List String
  inCode : Bool
  blocks : List SyncBlock
deriving Repr, DecidableEq

/-- Flush the open block (pushed only when a selector is set and at least
one line was accumulated). -/
def flushBlock (st : PState) : List SyncBlock :=
  match st.cur with
  | some sel =>
    if st.content ≠ [] then
      st.blocks ++
        [⟨sel, trimStr (joinWith "\n" st.content), detectContentType st.content⟩]
    else st.blocks
  | none => st.blocks

/-- One line of the `parseMarkdownContent` loop. -/
def parseStep (st : PState) (line : String) : PState :=
  let t := trimStr line
  if startsWithStr t "<!-- Selector:" then
    ⟨matchSelectorComment line, [], st.inCode, flushBlock st⟩
  else if startsWithStr t "<!-- Content extracted from:" ||
      startsWithStr t "<!-- Extracted at:" ||
      startsWithStr t "<!-- Method:" then st
  else if startsWithStr t "```" then
    { st with inCode := !st.inCode, content := st.content ++ [line] }
  else if st.cur ≠ none && !startsWithStr t "<!--" then
    { st with content := st.content ++ [line] }
  else st

/-- `parseMarkdownContent` on a pre-split line list. -/
def parseLines (lines : List String) : List SyncBlock :=
  flushBlock (lines.foldl parseStep ⟨none, [], false, []⟩)

/-- `parseMarkdownContent`. -/
def parseMarkdownContent (s : String) : List SyncBlock :=
  parseLines (splitLinesStr s)

/-- `content.replace(/^#+\s*/, '')`. -/
def stripHeading (s : String) : String :=
  match s.data with
  | '#' :: _ => ⟨(s.data.dropWhile fun c => c = '#').dropWhile isWSChar⟩
  | _ => s

/-- `content.replace(/^>\s*/, '')`. -/
def stripBlockquote (s : String) : String :=
  match s.data with
  | '>' :: rest => ⟨rest.dropWhile isWSChar⟩
  | _ => s

/-- JavaScript `\w`. -/
def isWordChar (c : Char) : Bool := c.isAlpha || c.isDigit || c = '_'

/-- `extractCodeText`: strip a leading ``` fence line and a trailing
``` fence. -/
def extractCodeText (s : String) : String :=
  let cs := s.data
  let afterOpen :=
    if "```".data.isPrefixOf cs then
      match (cs.drop 3).dropWhile isWordChar with
      | '\n' :: tail => tail
      | _ => cs
    else cs
  if "\n```".data.reverse.isPrefixOf afterOpen.reverse then
    ⟨afterOpen.take (afterOpen.length - 4)⟩
  else ⟨afterOpen⟩

/-- `line.replace(/^[-*]\s*/, '')`. -/
def stripBullet (line : String) : String :=
  match line.data with
  | '-' :: rest => ⟨rest.dropWhile isWSChar⟩
  | '*' :: rest => ⟨rest.dropWhile isWSChar⟩
  | _ => line

/-- `parseListItems`: bullet lines, bullets stripped. -/
def parseListItems (content : String) : List String :=
  ((splitLinesStr content).filter fun l =>
    startsWithStr (trimStr l) "- " || startsWithStr (trimStr l) "* ").map
    stripBullet

/-- `convertMarkdownToText`: type-directed markdown-decoration stripping;
list blocks become the comma-joined item list. -/
def convertMarkdownToText (content btype : String) : String :=
  if btype = "heading" then stripHeading content
  else if btype = "blockquote" then stripBlockquote content
  else if btype = "code" then extractCodeText content
  else if btype = "list" then joinWith ", " (parseListItems content)
  else content

/-- Replace the child forest of the element at the given position. -/
def setKidsGo : DForest → Nat → List Nat → DForest → DForest
  | .fnil, _, _, _ => .fnil
  | .fcons (.elem t a _) rest, 0, [], nk => .fcons (.elem t a nk) rest
  | .fcons (.elem t a f) rest, 0, j :: p, nk =>
    .fcons (.elem t a (setKidsGo f j p nk)) rest
  | .fcons n rest, 0, _, _ => .fcons n rest
  | .fcons n rest, i + 1, p, nk => .fcons n (setKidsGo rest i p nk)

/-- Replace the children of the element at a path. -/
def setKidsAt (d : Doc) (p : Path) (nk : DForest) : Doc :=
  match p with
  | [] => d
  | i :: p' => setKidsGo d i p' nk

/-- cheerio `$el.text(s)`: replace the children with one text node. -/
def setTextAt (d : Doc) (p : Path) (s : String) : Doc :=
  setKidsAt d p (.fcons (.txt s) .fnil)

/-- The type-directed patch of `updateHtmlElement`: lists are emptied and
refilled with one `<li>` per parsed bullet, code gets the fence-stripped
text, everything else gets its text content replaced. -/
def patchElement (d : Doc) (p : Path) (b : SyncBlock) : Doc :=
  if b.btype = "list" then
    setKidsAt d p (ofList ((parseListItems b.content).map fun it =>
      el "li" [] [.txt it]))
  else if b.btype = "code" then setTextAt d p (extractCodeText b.content)
  else setTextAt d p (convertMarkdownToText b.content b.btype)

/-- A reported change record. -/
structure ChangeRec where
  file : String
  selector : String
  oldText : String
  newText : String
deriving Repr, DecidableEq

/-- `updateHtmlElement`: resolve the selector (zero matches: skip with a
warning, no change); diff the element's trimmed text against the
recomputed text; patch only on a difference. -/
def updateHtmlElement (d : Doc) (b : SyncBlock) (file : String) :
    Doc × Option ChangeRec :=
  let ps := queryAll d b.selector
  if ps = [] then (d, none)
  else
    let oldText := trimStr (joinWith "" (ps.map fun p => textAt d p))
    let newText := convertMarkdownToText b.content b.btype
    if oldText = newText then (d, none)
    else
      (ps.foldl (fun dd p => patchElement dd p b) d,
       some ⟨file, b.selector, oldText, newText⟩)

/-- `updateHtmlFile`: process every block in order against the (mutating)
document, collecting the change records. -/
def updateFileBlocks (d : Doc) (blocks : List SyncBlock) (file : String) :
    Doc × List ChangeRec :=
  blocks.foldl
    (fun acc b =>
      let r := updateHtmlElement acc.1 b file
      (r.1, acc.2 ++ r.2.toList))
    (d, [])

/-- The serialize-then-reconcile round trip of the smart extractor and the
sync-back engine: extract, render to markdown, re-parse the unedited
markdown, and diff it against the original document. -/
def smartRoundTrip (d : Doc) (siteUrl now file : String) : List ChangeRec :=
  let content := parseContent13 d
  let md := convertToMarkdown13 content (extractTitle d) "HTTP" siteUrl now
  (updateFileBlocks d (parseMarkdownContent md) file).2

/-! ## MarkdownConverter.cleanupMarkdown (converter/markdown-converter.ts)

The four global regex replaces are implemented as equivalent single-pass
scanners (JavaScript `replace` resumes after each match, so each maximal
run is rewritten independently). -/

/-- Number of newlines in a run. -/
def nlCount (cs : List Char) : Nat := cs.countP fun c => c = '\n'

/-- Rewrite one maximal whitespace run for `/\n\s*\n\s*\n/g → '\n\n'`:
with three or more newlines, the match spans the first through the last
newline of the run and is replaced by a blank line. -/
def flushRun (run : List Char) : List Char :=
  if 3 ≤ nlCount run then
    (run.takeWhile fun c => c ≠ '\n') ++ '\n' :: '\n' ::
      ((run.reverse.takeWhile fun c => c ≠ '\n').reverse)
  else run

/-- Scanner for the blank-line collapse, accumulating the current
whitespace run. -/
def collapseGo : List Char → List Char → List Char
  | run, [] => flushRun run
  | run, c :: cs =>
    if isWSChar c then collapseGo (run ++ [c]) cs
    else flushRun run ++ c :: collapseGo [] cs

/-- `.replace(/\n\s*\n\s*\n/g, '\n\n')`. -/
def collapseBlank (cs : List Char) : List Char := collapseGo [] cs

/-- Scanner for `.replace(/[ \t]+$/gm, '')`: buffered spaces and tabs are
dropped at a line end. -/
def stripTrailGo : List Char → List Char → List Char
  | _, [] => []
  | buf, c :: cs =>
    if c = ' ' || c = '\t' then stripTrailGo (buf ++ [c]) cs
    else if c = '\n' then '\n' :: stripTrailGo [] cs
    else buf ++ c :: stripTrailGo [] cs

/-- `.replace(/[ \t]+$/gm, '')`. -/
def stripTrailing (cs : List Char) : List Char := stripTrailGo [] cs

/-- Lookahead for `\n#+ ` (the tail of `/([^\n])\n(#+ )/`). -/
def nlHashLook (cs : List Char) : Bool :=
  match cs with
  | [] => false
  | c :: rest =>
    c = '\n' && (rest.takeWhile fun x => x = '#') ≠ [] &&
      ((rest.dropWhile fun x => x = '#').head? = some ' ')

/-- Scanner for `.replace(/([^\n])\n(#+ )/g, '$1\n\n$2')`; the Boolean
state marks that we are copying the consumed `\n#+ ` tail of a match
(no new match may start inside it). -/
def headingGo : Bool → List Char → List Char
  | _, [] => []
  | true, c :: cs => c :: headingGo (c ≠ ' ') cs
  | false, c :: cs =>
    if c ≠ '\n' && nlHashLook cs then c :: '\n' :: headingGo true cs
    else c :: headingGo false cs

/-- `.replace(/([^\n])\n(#+ )/g, '$1\n\n$2')`. -/
def headingSpace (cs : List Char) : List Char := headingGo false cs

/-- State of the comment-removal scanner: inside a comment candidate
(buffer from the opening `<`), or collecting the trailing whitespace of a
completed `<!-- … -->`. -/
inductive RCMode where
  | norm : RCMode
  | scan : List Char → RCMode
  | trail : List Char → List Char → RCMode

/-- Scanner for `.replace(/<!-- [^>]* -->\s*\n/g, '')`: a comment whose
body reaches the first `>` through `" -->"` and is followed by whitespace
containing a newline is deleted through the last newline of that
whitespace; any failed candidate is emitted verbatim. -/
def rcGo : RCMode → List Char → List Char
  | .norm, [] => []
  | .norm, c :: cs =>
    if c = '<' && "!-- ".data.isPrefixOf cs then rcGo (.scan ['<']) cs
    else c :: rcGo .norm cs
  | .scan buf, [] => buf
  | .scan buf, c :: cs =>
    if c = '>' then
      if 8 ≤ (buf ++ [c]).length && " --".data.reverse.isPrefixOf buf.reverse then
        rcGo (.trail (buf ++ [c]) []) cs
      else (buf ++ [c]) ++ rcGo .norm cs
    else rcGo (.scan (buf ++ [c])) cs
  | .trail buf ws, [] =>
    if ws.any (fun c => c = '\n') then (ws.reverse.takeWhile fun c => c ≠ '\n').reverse
    else buf ++ ws
  | .trail buf ws, c :: cs =>
    if isWSChar c then rcGo (.trail buf (ws ++ [c])) cs
    else if ws.any (fun c => c = '\n') then
      ((ws.reverse.takeWhile fun c => c ≠ '\n').reverse) ++ c :: rcGo .norm cs
    else (buf ++ ws) ++ c :: rcGo .norm cs

/-- `.replace(/<!-- [^>]* -->\s*\n/g, '')`. -/
def removeComments (cs : List Char) : List Char := rcGo .norm cs

/-- `cleanupMarkdown`: collapse blank lines, strip trailing whitespace,
space out headings, remove metadata comments, trim. -/
def cleanupMarkdown (s : String) : String :=
  trimStr ⟨removeComments (headingSpace (stripTrailing (collapseBlank s.data)))⟩

/-! ## Lemmas: overlap filtering (claim C4) -/

theorem overlap_symm (a b : Path) :
    areElementsOverlapping a b = areElementsOverlapping b a := by
  unfold areElementsOverlapping
  by_cases hab : a = b
  · subst hab; simp
  · by_cases h1 : a.isPrefixOf b <;> by_cases h2 : b.isPrefixOf a <;>
      simp [hab, Ne.symm hab, h1, h2]

/-- The non-overlap relation the accepted-region invariant uses. -/
def NoOverlap (x y : ContentArea) : Prop :=
  areElementsOverlapping x.path y.path = false

theorem filterOverlapGo_pairwise (rest : List ContentArea) :
    ∀ acc, acc.Pairwise NoOverlap → (filterOverlapGo rest acc).Pairwise NoOverlap := by
  induction rest with
  | nil => intro acc h; simpa [filterOverlapGo] using h
  | cons a rest ih =>
    intro acc h
    unfold filterOverlapGo
    by_cases hany : acc.any (fun e => areElementsOverlapping a.path e.path) = true
    · simpa [hany] using ih _ h
    · have hall := List.any_eq_false.mp (Bool.not_eq_true _ ▸ hany)
      simp only [hany, if_false]
      apply ih
      rw [List.pairwise_append]
      refine ⟨h, List.pairwise_singleton _ _, ?_⟩
      intro x hx y hy
      rw [List.mem_singleton] at hy
      subst hy
      have hx' := hall x hx
      unfold NoOverlap
      rw [overlap_symm]
      simpa using hx'

theorem filterOverlapGo_sublist (rest : List ContentArea) :
    ∀ acc, ∃ s, filterOverlapGo rest acc = acc ++ s ∧ s.Sublist rest := by
  induction rest with
  | nil => intro acc; exact ⟨[], by simp [filterOverlapGo]⟩
  | cons a rest ih =>
    intro acc
    unfold filterOverlapGo
    by_cases hany : acc.any (fun e => areElementsOverlapping a.path e.path) = true
    · obtain ⟨s, hs, hsub⟩ := ih acc
      exact ⟨s, by simp [hany, hs], hsub.cons a⟩
    · obtain ⟨s, hs, hsub⟩ := ih (acc ++ [a])
      refine ⟨a :: s, ?_, hsub.cons₂ a⟩
      simp only [hany, if_false]
      rw [hs, List.append_assoc]
      rfl

theorem mem_insertByScore {x a : ContentArea} :
    ∀ {l : List ContentArea}, x ∈ insertByScore a l → x = a ∨ x ∈ l := by
  intro l
  induction l with
  | nil => intro h; simpa [insertByScore] using h
  | cons b rest ih =>
    intro h
    unfold insertByScore at h
    by_cases hc : a.score > b.score
    · simp only [hc, if_true] at h
      rw [List.mem_cons] at h
      exact h
    · simp only [hc, if_false] at h
      rw [List.mem_cons] at h
      rcases h with h | h
      · exact Or.inr (by simp [h])
      · rcases ih h with h' | h'
        · exact Or.inl h'
        · exact Or.inr (List.mem_cons_of_mem _ h')

theorem pairwise_insertByScore {a : ContentArea} :
    ∀ {l : List ContentArea}, l.Pairwise (fun x y => y.score ≤ x.score) →
    (insertByScore a l).Pairwise (fun x y => y.score ≤ x.score) := by
  intro l
  induction l with
  | nil => intro _; simp [insertByScore]
  | cons b rest ih =>
    intro h
    rw [List.pairwise_cons] at h
    obtain ⟨hb, hrest⟩ := h
    unfold insertByScore
    by_cases hc : a.score > b.score
    · simp only [hc, if_true]
      rw [List.pairwise_cons]
      constructor
      · intro y hy
        rw [List.mem_cons] at hy
        rcases hy with hy | hy
        · subst hy; omega
        · have := hb y hy; omega
      · rw [List.pairwise_cons]; exact ⟨hb, hrest⟩
    · simp only [hc, if_false]
      rw [List.pairwise_cons]
      constructor
      · intro y hy
        rcases mem_insertByScore hy with h' | h'
        · subst h'; omega
        · exact hb y h'
      · exact ih hrest

theorem sortByScoreDesc_sorted (l : List ContentArea) :
    (sortByScoreDesc l).Pairwise (fun x y => y.score ≤ x.score) := by
  induction l with
  | nil => simp [sortByScoreDesc]
  | cons a rest ih => exact pairwise_insertByScore ih


/-! ## Claim C4: region non-overlap -/

/-- C4: after overlap filtering, no two returned content regions are in an
ancestor / descendant / same-element relation; candidates are considered
in descending score order (the sorted list is score-decreasing and the
filter output is a sublist of it, each accepted only when it overlaps no
already-accepted region), and the invariant holds for `findContentAreas`
on every configuration and document. -/
theorem c4_region_nonoverlap :
    (∀ areas : List ContentArea,
      (filterOverlappingAreas (sortByScoreDesc areas)).Pairwise NoOverlap ∧
      (filterOverlappingAreas (sortByScoreDesc areas)).Sublist
        (sortByScoreDesc areas) ∧
      (sortByScoreDesc areas).Pairwise (fun x y => y.score ≤ x.score)) ∧
    (∀ cfg d, (findContentAreas cfg d).Pairwise NoOverlap) := by
  constructor
  · intro areas
    refine ⟨filterOverlapGo_pairwise _ _ List.Pairwise.nil, ?_,
      sortByScoreDesc_sorted areas⟩
    obtain ⟨s, hs, hsub⟩ := filterOverlapGo_sublist (sortByScoreDesc areas) []
    unfold filterOverlappingAreas
    rw [hs]
    simpa using hsub
  · intro cfg d
    unfold findContentAreas filterOverlappingAreas
    exact filterOverlapGo_pairwise _ _ List.Pairwise.nil

/-! ## Claim C2: selector strategy order -/

/-- A document whose `div` carries both a `data-testid` attribute and a
unique non-generic class. -/
def docAttrClass : Doc := ofList [el "html" [] [
  el "body" [] [
    el "div" [("class", "promo"), ("data-testid", "x")] [.txt "hello"]]]]

/-- C2 as stated is false: for an element with both a `data-testid`
attribute and a unique class, `buildSelector` returns the class selector
(reliability 0.80), although the attribute strategy yields the non-empty
selector `[data-testid="x"]` with the higher reliability 0.90 — the
source tries the class strategy before the attribute strategy. -/
theorem c2_counterexample :
    buildSelector docAttrClass [0, 0, 0] =
      ⟨"div.promo", none, 11, 80⟩ ∧
    buildAttributeSelector docAttrClass [0, 0, 0] =
      ⟨"[data-testid=\"x\"]", none, 10, 90⟩ ∧
    (buildSelector docAttrClass [0, 0, 0]).reliability <
      (buildAttributeSelector docAttrClass [0, 0, 0]).reliability := by
  refine ⟨by decide, by decide, by decide⟩

/-- C2 (amended): the strategies are tried in the source order id, class,
attribute, structural path, first non-empty selector wins; so whenever the
id strategy fails and the class strategy yields a non-empty selector, the
class candidate is returned even if the attribute strategy would have
yielded a higher-reliability candidate. -/
theorem c2_strategy_order_amended (d : Doc) (p : Path)
    (hid : (buildIdSelector d p).cssSelector = "")
    (hcl : (buildClassSelector d p).cssSelector ≠ "") :
    buildSelector d p = buildClassSelector d p := by
  unfold buildSelector
  simp [firstNonEmptySel, hid, hcl]

theorem c2_strategy_order_amended_witness :
    buildSelector docAttrClass [0, 0, 0] =
      buildClassSelector docAttrClass [0, 0, 0] :=
  c2_strategy_order_amended docAttrClass [0, 0, 0] (by decide) (by decide)

/-! ## Claim C8: structural path strategy -/

/-- A document with an id-bearing ancestor and two same-tag sibling
paragraphs. -/
def docPathSib : Doc := ofList [el "html" [] [
  el "body" [] [
    el "div" [("id", "container")] [
      el "p" [] [.txt "a"], el "p" [] [.txt "b"]]]]]

/-- C8 as stated is false at the second `p` of `docPathSib`: the CSS
segment is `p:nth-child(0)` (not the 1-based sibling index 2 that the
XPath `/p[2]` segment uses), and the walk does not stop at the ancestor
carrying `id="container"` but continues to `html`. -/
theorem c8_counterexample :
    getElementPath18 docPathSib [0, 0, 0, 1] =
      "html > body > div > p:nth-child(0)" ∧
    buildXPath docPathSib [0, 0, 0, 1] = "/html/body[1]/div[1]/p[2]" ∧
    attrD ((docGet docPathSib [0, 0, 0]).getD (.txt "")) "id" = "container" ∧
    includesStr (getElementPath18 docPathSib [0, 0, 0, 1]) "container" = false := by
  refine ⟨by decide, by decide, by decide, by decide⟩

/-! ## Claim C5: unresolvable selectors are skipped -/

/-- An empty join of optional-change contributions. -/
theorem updateFileBlocks_append (d : Doc) (file : String)
    (bs cs : List SyncBlock) :
    updateFileBlocks d (bs ++ cs) file =
      (let acc := updateFileBlocks d bs file
       cs.foldl (fun acc b =>
         let r := updateHtmlElement acc.1 b file
         (r.1, acc.2 ++ r.2.toList)) acc) := by
  unfold updateFileBlocks
  rw [List.foldl_append]

/-- C5: a block whose selector resolves to zero elements in the document
being patched is skipped — it produces no change record and no patch — and
the file result is exactly the result of processing the remaining blocks:
a single unresolvable selector never fails or alters the rest of the
file. -/
theorem c5_selector_not_found_skip (d : Doc) (file : String)
    (pre post : List SyncBlock) (b : SyncBlock)
    (h : queryAll (updateFileBlocks d pre file).1 b.selector = []) :
    updateFileBlocks d (pre ++ b :: post) file =
      updateFileBlocks d (pre ++ post) file := by
  rw [updateFileBlocks_append d file pre (b :: post),
      updateFileBlocks_append d file pre post]
  simp only [List.foldl_cons]
  have hb : updateHtmlElement (updateFileBlocks d pre file).1 b file =
      ((updateFileBlocks d pre file).1, none) := by
    unfold updateHtmlElement
    simp [h]
  rw [hb]
  simp

/-- Document and blocks witnessing C5: the middle block's selector
`.missing` matches nothing, the final block still patches `p`. -/
def docC5 : Doc := ofList [el "html" [] [
  el "body" [] [el "p" [] [.txt "old"]]]]

theorem c5_selector_not_found_skip_witness :
    updateFileBlocks docC5
      [⟨".missing", "x", "paragraph"⟩, ⟨"p", "new", "paragraph"⟩] "f.html" =
    updateFileBlocks docC5 [⟨"p", "new", "paragraph"⟩] "f.html" :=
  c5_selector_not_found_skip docC5 "f.html" []
    [⟨"p", "new", "paragraph"⟩] ⟨".missing", "x", "paragraph"⟩ (by decide)

/-! ## Claim C6: empty region list versus body fallback -/

/-- A document in which no configured candidate content selector matches
any element. -/
def docNoRegion : Doc := ofList [el "html" [] [
  el "body" [] [el "span" [] [.txt "hi"]]]]

/-- C6 as stated is false for the `ContentIdentifier` pipeline: with the
default configuration and a document matching no candidate selector,
`findContentAreas` returns the empty region list and the orchestrator's
region stage raises the error `"No content areas found on page"` instead
of falling back to the document body. -/
theorem c6_counterexample :
    findContentAreas defaultSelectionConfig docNoRegion = [] ∧
    parsePageContentRegions defaultSelectionConfig docNoRegion =
      .error "No content areas found on page" := by
  refine ⟨by decide, by rfl⟩

/-- C6 (amended): the body fallback exists only in the smart extractor's
`parseContent` — when none of its candidate selectors matches, the chosen
content area is `$('body').first()` — while the `ContentIdentifier`-based
pipeline returns an empty region list, which `parsePageContent` turns into
the thrown error `"No content areas found on page"`. -/
theorem c6_fallback_amended :
    (∀ d : Doc, (∀ sel ∈ smartContentSelectors, queryAll d sel = []) →
      pickContentArea d = queryFirst d "body") ∧
    (∀ cfg d, findContentAreas cfg d = [] →
      parsePageContentRegions cfg d = .error "No content areas found on page") := by
  constructor
  · intro d h
    unfold pickContentArea
    have hnone : smartContentSelectors.findSome?
        (fun sel => queryFirst d sel) = none := by
      rw [List.findSome?_eq_none_iff]
      intro sel hsel
      unfold queryFirst
      rw [h sel hsel]
      rfl
    rw [hnone]
  · intro cfg d h
    unfold parsePageContentRegions
    simp [h]

theorem c6_fallback_amended_witness :
    pickContentArea docNoRegion = queryFirst docNoRegion "body" ∧
    parsePageContentRegions defaultSelectionConfig docNoRegion =
      .error "No content areas found on page" :=
  ⟨c6_fallback_amended.1 docNoRegion (by decide),
   c6_fallback_amended.2 defaultSelectionConfig docNoRegion (by decide)⟩

/-! ## Lemmas: forest indexing and path segments (claim C8) -/

theorem getGo_nil : ∀ (i : Nat) (f : DForest), getGo f i [] = fget f i := by
  intro i
  induction i with
  | zero =>
    intro f
    cases f with
    | fnil => simp [getGo, fget]
    | fcons n rest => simp [getGo, fget]
  | succ i ih =>
    intro f
    cases f with
    | fnil => simp [getGo, fget]
    | fcons n rest =>
      simp only [getGo, fget]
      exact ih rest

theorem fget_step (j : Nat) (p : List Nat) :
    ∀ (i : Nat) (f : DForest), getGo f i (j :: p) =
      (match fget f i with
       | some (.elem _ _ kids) => getGo kids j p
       | _ => none) := by
  intro i
  induction i with
  | zero =>
    intro f
    cases f with
    | fnil => simp [getGo, fget]
    | fcons n rest =>
      cases n with
      | elem t a kids => simp [getGo, fget]
      | txt s => simp [getGo, fget]
  | succ i ih =>
    intro f
    cases f with
    | fnil => simp [getGo, fget]
    | fcons n rest =>
      simp only [getGo, fget]
      exact ih rest

theorem docGet_parts : ∀ (pp : List Nat) (d : Doc) (j : Nat) (n : DNode),
    docGet d (pp ++ [j]) = some n →
    fget (siblingForest d (pp ++ [j])) j = some n := by
  intro pp
  induction pp with
  | nil =>
    intro d j n h
    simp only [List.nil_append] at h ⊢
    have h' : getGo d j [] = some n := h
    rw [getGo_nil] at h'
    unfold siblingForest
    simp only [List.dropLast_single]
    exact h'
  | cons i pp' ih =>
    intro d j n h
    have h1 : getGo d i (pp' ++ [j]) = some n := h
    obtain ⟨j₀, tail, hpj⟩ : ∃ j₀ tail, pp' ++ [j] = j₀ :: tail := by
      cases pp' with
      | nil => exact ⟨j, [], rfl⟩
      | cons a b => exact ⟨a, b ++ [j], rfl⟩
    rw [hpj, fget_step] at h1
    cases hfg : fget d i with
    | none => rw [hfg] at h1; simp at h1
    | some nd =>
      cases nd with
      | txt s => rw [hfg] at h1; simp at h1
      | elem t a kids =>
        rw [hfg] at h1
        have h2 : getGo kids j₀ tail = some n := h1
        have hk : docGet kids (pp' ++ [j]) = some n := by
          rw [hpj]
          exact h2
        have hsf : siblingForest d ((i :: pp') ++ [j]) =
            siblingForest kids (pp' ++ [j]) := by
          unfold siblingForest
          rw [show ((i :: pp') ++ [j]).dropLast = i :: pp' from
                List.dropLast_concat,
              show (pp' ++ [j]).dropLast = pp' from List.dropLast_concat]
          cases pp' with
          | nil =>
            have hdg : docGet d [i] = some (DNode.elem t a kids) := by
              show getGo d i [] = _
              rw [getGo_nil]
              exact hfg
            simp [hdg]
          | cons a' b =>
            have hdg : docGet d (i :: a' :: b) = docGet kids (a' :: b) := by
              show getGo d i (a' :: b) = _
              rw [fget_step, hfg]
              simp [docGet]
            simp [hdg]
        rw [hsf]
        exact ih kids j n hk

theorem mem_elemIdxGo (pr : String → Bool) :
    ∀ (j : Nat) (f : DForest) (i : Nat) (t : String)
      (a : List (String × String)) (kids : DForest),
      fget f j = some (.elem t a kids) → pr t = true →
      (i + j) ∈ elemIdxGo pr f i := by
  intro j
  induction j with
  | zero =>
    intro f i t a kids hf hpr
    cases f with
    | fnil => simp [fget] at hf
    | fcons n rest =>
      simp only [fget] at hf
      cases hf
      simp [elemIdxGo, hpr]
  | succ j ih =>
    intro f i t a kids hf hpr
    cases f with
    | fnil => simp [fget] at hf
    | fcons n rest =>
      have hrest : fget rest j = some (.elem t a kids) := hf
      have hmem := ih rest (i + 1) t a kids hrest hpr
      have harith : i + (j + 1) = (i + 1) + j := by omega
      rw [harith]
      cases n with
      | txt s => simpa [elemIdxGo] using hmem
      | elem t' a' kids' =>
        by_cases hp' : pr t' = true
        · simp [elemIdxGo, hp']
          right
          exact hmem
        · simp only [elemIdxGo, Bool.not_eq_true] at hp' ⊢
          rw [hp']
          simpa using hmem

theorem jsIndexOf_nonneg_of_mem {l : List Nat} {x : Nat} (h : x ∈ l) :
    0 ≤ jsIndexOf l x := by
  unfold jsIndexOf
  cases hf : l.findIdx? (fun i => i = x) with
  | some k => simp
  | none =>
    rw [List.findIdx?_eq_none_iff] at hf
    have := hf x h
    simp at this

theorem append_ne_empty_left (a b : String) (h : a ≠ "") : a ++ b ≠ "" := by
  intro hc
  apply h
  have hd := congrArg String.data hc
  rw [String.data_append] at hd
  have h2 := List.append_eq_nil.mp hd
  exact String.ext h2.1

theorem pathTag18_ne (d : Doc) (q : Path) : pathTag18 d q ≠ "" := by
  unfold pathTag18
  by_cases h : lowerStr (tagOf ((docGet d q).getD (.txt ""))) = ""
  · simp [h]
  · simp [h]

theorem pathBase18_ne (d : Doc) (q : Path) : pathBase18 d q ≠ "" := by
  unfold pathBase18
  cases hcl : attrOf ((docGet d q).getD (.txt "")) "class" with
  | none => exact pathTag18_ne d q
  | some className =>
    cases hsp : splitWSFields className with
    | nil => simp only [hsp]; exact pathTag18_ne d q
    | cons c cls =>
      simp only [hsp]
      exact append_ne_empty_left _ _ (append_ne_empty_left _ _ (pathTag18_ne d q))

theorem pathSegment18_ne (d : Doc) (q : Path) : pathSegment18 d q ≠ "" := by
  unfold pathSegment18
  by_cases h : (siblingsSameTag d q (pathTag18 d q)).length > 0
  · simp only [h, if_true]
    exact append_ne_empty_left _ _
      (append_ne_empty_left _ _ (append_ne_empty_left _ _ (pathBase18_ne d q)))
  · simp only [h, if_false]
    exact pathBase18_ne d q

theorem upSegs18_mem (d : Doc) :
    ∀ (rp : List Nat) (s : String), s ∈ upSegs18 d rp → s ≠ "" := by
  intro rp
  induction rp with
  | nil =>
    intro s h
    simp [upSegs18] at h
  | cons i rp' ih =>
    intro s h
    rw [upSegs18] at h
    rcases List.mem_cons.mp h with h | h
    · rw [h]; exact pathSegment18_ne d _
    · exact ih s h

theorem joinWith_ne_empty (sep : String) : ∀ (l : List String), l ≠ [] →
    (∀ s ∈ l, s ≠ "") → joinWith sep l ≠ "" := by
  intro l
  induction l with
  | nil => intro h; exact absurd rfl h
  | cons s rest ih =>
    intro _ hall
    cases rest with
    | nil => simpa [joinWith] using hall s (by simp)
    | cons s2 r2 =>
      show s ++ sep ++ joinWith sep (s2 :: r2) ≠ ""
      exact append_ne_empty_left _ _ (append_ne_empty_left _ _ (hall s (by simp)))

/-! ## Claim C8 (amended) -/

/-- C8 (amended): the structural-path selector is always non-empty, but
for every element with at least one same-tag sibling the emitted CSS
segment ends in `:nth-child(0)` — cheerio's `.siblings()` does not contain
the element itself, so `siblings.index(current) + 1` is `0` — whereas the
parallel XPath sibling list does contain the element, making its `tag[k]`
index 1-based; and the walk never terminates early at an id-bearing
ancestor (it continues to the document root). -/
theorem c8_path_amended :
    (∀ (d : Doc) (p : Path), p ≠ [] → getElementPath18 d p ≠ "") ∧
    (∀ (d : Doc) (p : Path), 0 < (siblingsSameTag d p (pathTag18 d p)).length →
      pathSegment18 d p = pathBase18 d p ++ ":nth-child(0)") ∧
    (∀ (d : Doc) (q : Path) (t : String) (a : List (String × String))
      (kids : DForest), docGet d q = some (.elem t a kids) → q ≠ [] →
      1 ≤ xpathIndex d q) := by
  refine ⟨?_, ?_, ?_⟩
  · intro d p hp
    unfold getElementPath18
    apply joinWith_ne_empty
    · have hrev : p.reverse ≠ [] := by simpa using hp
      obtain ⟨i, rp', hrp⟩ := List.exists_cons_of_ne_nil hrev
      rw [hrp]
      simp [upSegs18]
    · intro s hs
      rw [List.mem_reverse] at hs
      exact upSegs18_mem d _ s hs
  · intro d p h
    unfold pathSegment18
    simp only [h, if_true]
    have hidx : jsIndexOf (siblingsSameTag d p (pathTag18 d p)) (p.getLastD 0) = -1 := by
      unfold jsIndexOf
      have hnone : (siblingsSameTag d p (pathTag18 d p)).findIdx?
          (fun i => i = p.getLastD 0) = none := by
        rw [List.findIdx?_eq_none_iff]
        intro x hx
        unfold siblingsSameTag at hx
        have := (List.mem_filter.mp hx).2
        simpa using this
      rw [hnone]
    have hx : (":nth-child(" ++ (natStr ((-1 : Int) + 1).toNat ++ ")") :
        String) = ":nth-child(0)" := by decide
    rw [hidx, String.append_assoc, String.append_assoc, hx]
  · intro d q t a kids hget hq
    obtain ⟨pp, x, rfl⟩ : ∃ pp x, q = pp ++ [x] :=
      ⟨q.dropLast, q.getLast hq, (List.dropLast_append_getLast hq).symm⟩
    unfold xpathIndex
    rw [hget]
    simp only [Option.getD_some]
    have hfget := docGet_parts pp d x _ hget
    have hmem := mem_elemIdxGo (fun tg => tg = t) x
      (siblingForest d (pp ++ [x])) 0 t a kids hfget (by simp)
    simp only [Nat.zero_add] at hmem
    have hlast : (pp ++ [x]).getLastD 0 = x := List.getLastD_concat _ _ _
    rw [hlast]
    have hnn := jsIndexOf_nonneg_of_mem
      (show x ∈ elemIdxGo (fun tg => tg = tagOf (.elem t a kids))
          (siblingForest d (pp ++ [x])) 0 by simpa [tagOf] using hmem)
    omega

theorem c8_path_amended_witness :
    getElementPath18 docPathSib [0, 0, 0, 1] ≠ "" ∧
    pathSegment18 docPathSib [0, 0, 0, 1] =
      pathBase18 docPathSib [0, 0, 0, 1] ++ ":nth-child(0)" ∧
    1 ≤ xpathIndex docPathSib [0, 0, 0, 1] :=
  ⟨c8_path_amended.1 docPathSib [0, 0, 0, 1] (by decide),
   c8_path_amended.2.1 docPathSib [0, 0, 0, 1] (by decide),
   c8_path_amended.2.2 docPathSib [0, 0, 0, 1] "p" []
     (.fcons (.txt "b") .fnil) (by rfl) (by decide)⟩

/-! ## Lemmas: decimal rendering (claims C3, C9) -/

theorem digitCh_ne_dash (m : Nat) : digitCh m ≠ '-' := by
  unfold digitCh
  repeat' split
  all_goals decide

theorem natChars_ne_dash : ∀ (f n : Nat), '-' ∉ natChars f n := by
  intro f
  induction f with
  | zero => intro n; simp [natChars]
  | succ f ih =>
    intro n
    unfold natChars
    by_cases h : n < 10
    · simp only [h, if_true]
      intro hc
      rw [List.mem_singleton] at hc
      exact digitCh_ne_dash n hc.symm
    · simp only [h, if_false]
      intro hc
      rw [List.mem_append] at hc
      rcases hc with hc | hc
      · exact ih _ hc
      · rw [List.mem_singleton] at hc
        exact digitCh_ne_dash _ hc.symm

/-- Numeric value of a decimal digit character. -/
def digitVal (c : Char) : Nat := c.toNat - 48

/-- Value of a digit string. -/
def valOfDigits (cs : List Char) : Nat :=
  cs.foldl (fun a c => 10 * a + digitVal c) 0

theorem digitVal_digitCh (m : Nat) (h : m < 10) : digitVal (digitCh m) = m := by
  interval_cases m <;> decide

theorem natChars_val : ∀ (f n : Nat), n < 10 ^ f →
    valOfDigits (natChars f n) = n := by
  intro f
  induction f with
  | zero =>
    intro n h
    have : n = 0 := by simpa using h
    simp [this, natChars, valOfDigits]
  | succ f ih =>
    intro n h
    unfold natChars
    by_cases hn : n < 10
    · simp [hn, valOfDigits, digitVal_digitCh n hn]
    · simp only [hn, if_false]
      unfold valOfDigits
      rw [List.foldl_append]
      have hdiv : n / 10 < 10 ^ f := by
        rw [Nat.div_lt_iff_lt_mul (by norm_num)]
        calc n < 10 ^ (f + 1) := h
        _ = 10 ^ f * 10 := by ring
      have hv := ih (n / 10) hdiv
      unfold valOfDigits at hv
      rw [hv]
      simp only [List.foldl_cons, List.foldl_nil]
      rw [digitVal_digitCh (n % 10) (Nat.mod_lt _ (by norm_num))]
      omega

theorem natStr_inj {m n : Nat} (h : natStr m = natStr n) : m = n := by
  have hd : natChars (m + 1) m = natChars (n + 1) n := congrArg String.data h
  have hm : m < 10 ^ (m + 1) :=
    lt_of_lt_of_le (Nat.lt_pow_self (by norm_num) m)
      (Nat.pow_le_pow_right (by norm_num) (Nat.le_succ m))
  have hn : n < 10 ^ (n + 1) :=
    lt_of_lt_of_le (Nat.lt_pow_self (by norm_num) n)
      (Nat.pow_le_pow_right (by norm_num) (Nat.le_succ n))
  calc m = valOfDigits (natChars (m + 1) m) := (natChars_val _ _ hm).symm
  _ = valOfDigits (natChars (n + 1) n) := by rw [hd]
  _ = n := natChars_val _ _ hn

theorem dash_split : ∀ (a b d₁ d₂ : List Char), '-' ∉ d₁ → '-' ∉ d₂ →
    a ++ '-' :: d₁ = b ++ '-' :: d₂ → a = b ∧ d₁ = d₂ := by
  intro a
  induction a with
  | nil =>
    intro b d₁ d₂ h1 _ he
    cases b with
    | nil =>
      simp only [List.nil_append] at he
      exact ⟨rfl, (List.cons.injEq _ _ _ _ ▸ he).2⟩
    | cons x b' =>
      simp only [List.nil_append, List.cons_append, List.cons.injEq] at he
      exact absurd (he.2 ▸ List.mem_append_right b' (List.mem_cons_self _ _)) h1
  | cons x a' ih =>
    intro b d₁ d₂ h1 h2 he
    cases b with
    | nil =>
      simp only [List.cons_append, List.nil_append, List.cons.injEq] at he
      exact absurd (he.2.symm ▸ List.mem_append_right a' (List.mem_cons_self _ _)) h2
    | cons y b' =>
      simp only [List.cons_append, List.cons.injEq] at he
      obtain ⟨hxy, he'⟩ := he
      obtain ⟨ha, hd⟩ := ih b' d₁ d₂ h1 h2 he'
      exact ⟨by rw [hxy, ha], hd⟩

/-! ## Claim C3: content id stability and uniqueness -/

/-- The explicit shape of one `generateContentId` call. -/
theorem genId_eq (md5hex : String → String) (text ty url : String)
    (sel : Option String) (c : Nat) :
    generateContentId md5hex text ty url sel c =
      ("content-" ++ hash8 md5hex (trimStr text ++ "-" ++ ty ++ "-" ++ url) ++
        "-" ++ natStr (c + 1), c + 1) := rfl

/-- C3: for any hash function and any fixed `(text, unitType, url)`, every
call of `generateContentId` yields `content-<hash8>-<counter+1>` with the
hash component depending only on the trimmed text, the type and the url
(not on the counter or the unused selector argument), and the counter is
incremented — so two successive calls differ only in the counter suffix —
and two calls made at different counter states, in particular within one
run, always yield distinct ids even on identical inputs. -/
theorem c3_id_stability :
    (∀ (md5hex : String → String) (text ty url : String)
      (sel : Option String) (c : Nat),
      generateContentId md5hex text ty url sel c =
        ("content-" ++ hash8 md5hex (trimStr text ++ "-" ++ ty ++ "-" ++ url) ++
          "-" ++ natStr (c + 1), c + 1)) ∧
    (∀ (md5hex : String → String) (t1 y1 u1 t2 y2 u2 : String)
      (s1 s2 : Option String) (c1 c2 : Nat), c1 ≠ c2 →
      (generateContentId md5hex t1 y1 u1 s1 c1).1 ≠
        (generateContentId md5hex t2 y2 u2 s2 c2).1) := by
  constructor
  · intro md5hex text ty url sel c
    exact genId_eq md5hex text ty url sel c
  · intro md5hex t1 y1 u1 t2 y2 u2 s1 s2 c1 c2 hne he
    rw [genId_eq, genId_eq] at he
    simp only at he
    have hd := congrArg String.data he
    simp only [String.data_append, List.append_assoc,
      show ("-" : String).data = ['-'] from rfl, List.singleton_append] at hd
    have h1 := List.append_cancel_left hd
    have hsplit := dash_split _ _ _ _
      (show '-' ∉ (natStr (c1 + 1)).data from natChars_ne_dash _ _)
      (show '-' ∉ (natStr (c2 + 1)).data from natChars_ne_dash _ _) h1
    have h3 : natStr (c1 + 1) = natStr (c2 + 1) := String.ext hsplit.2
    have := natStr_inj h3
    omega

theorem c3_id_stability_witness :
    generateContentId (fun _ => "0123abcd") "Read more" "link" "https://e.com"
        none 0 = ("content-0123abcd-1", 1) ∧
    (generateContentId (fun _ => "0123abcd") "Read more" "link" "https://e.com"
        none 0).1 ≠
      (generateContentId (fun _ => "0123abcd") "Read more" "link" "https://e.com"
        none 1).1 :=
  ⟨(c3_id_stability.1 (fun _ => "0123abcd") "Read more" "link" "https://e.com"
      none 0).trans (by decide),
   c3_id_stability.2 (fun _ => "0123abcd") "Read more" "link" "https://e.com"
     "Read more" "link" "https://e.com" none none 0 1 (by decide)⟩

/-! ## Claim C9: the run counter is never reset -/

/-- C9 is false on the code: nothing in the repository ever calls
`IdGenerator.reset()`, so a second extraction run in the same process
continues the singleton counter where the first run left it (here: the
first run ends with counter 1 and the second run's id carries suffix `-2`),
and the two runs' id sequences differ even over identical pages. -/
theorem c9_counter_not_reset (md5hex : String → String) (text ty url : String) :
    (runGenerateIds md5hex [(text, ty)] url 0).2 = 1 ∧
    (runGenerateIds md5hex [(text, ty)] url 0).1 ≠
      (runGenerateIds md5hex [(text, ty)] url
        (runGenerateIds md5hex [(text, ty)] url 0).2).1 := by
  have h1 : runGenerateIds md5hex [(text, ty)] url 0 =
      (["content-" ++ hash8 md5hex (trimStr text ++ "-" ++ ty ++ "-" ++ url) ++
        "-" ++ natStr 1], 1) := rfl
  have h2 : runGenerateIds md5hex [(text, ty)] url 1 =
      (["content-" ++ hash8 md5hex (trimStr text ++ "-" ++ ty ++ "-" ++ url) ++
        "-" ++ natStr 2], 2) := rfl
  have hs : ("content-" ++ hash8 md5hex (trimStr text ++ "-" ++ ty ++ "-" ++ url) ++
      "-" ++ natStr 1 : String) ≠
      "content-" ++ hash8 md5hex (trimStr text ++ "-" ++ ty ++ "-" ++ url) ++
      "-" ++ natStr 2 := by
    intro he
    rw [show natStr 1 = "1" from by decide, show natStr 2 = "2" from by decide] at he
    have hd := congrArg String.data he
    simp only [String.data_append, List.append_assoc] at hd
    have x1 := List.append_cancel_left hd
    have x2 := List.append_cancel_left x1
    have x3 := List.append_cancel_left x2
    exact absurd x3 (by decide)
  refine ⟨by rw [h1], ?_⟩
  have hB : (runGenerateIds md5hex [(text, ty)] url
      (runGenerateIds md5hex [(text, ty)] url 0).2).1 =
      ["content-" ++ hash8 md5hex (trimStr text ++ "-" ++ ty ++ "-" ++ url) ++
        "-" ++ natStr 2] := by
    rw [h1]
    exact congrArg Prod.fst h2
  rw [hB, h1]
  simp only [ne_eq, List.cons.injEq, and_true]
  exact hs

/-! ## Lemmas: the markdown block parser (claims C10, C1) -/

theorem flushBlock_empty (cur : Option String) (b : Bool)
    (blocks : List SyncBlock) : flushBlock ⟨cur, [], b, blocks⟩ = blocks := by
  unfold flushBlock
  cases cur <;> simp

theorem startsWith_comment_not_fence {t : String}
    (h : startsWithStr t "<!--" = true) : startsWithStr t "```" = false := by
  unfold startsWithStr startsWithChars at h ⊢
  cases ht : t.data with
  | nil => rw [ht] at h; simp [List.isPrefixOf] at h
  | cons c rest =>
    rw [ht] at h
    simp only [show ("<!--" : String).data = ['<', '!', '-', '-'] from rfl,
      List.isPrefixOf, Bool.and_eq_true, beq_iff_eq] at h
    simp only [show ("```" : String).data = ['`', '`', '`'] from rfl,
      List.isPrefixOf]
    rw [← h.1]
    simp

theorem parseStep_marker (st : PState) (l : String)
    (h : startsWithStr (trimStr l) "<!-- Selector:" = true) :
    parseStep st l = ⟨matchSelectorComment l, [], st.inCode, flushBlock st⟩ := by
  unfold parseStep
  simp [h]

theorem parseStep_comment (st : PState) (l : String)
    (h1 : startsWithStr (trimStr l) "<!--" = true)
    (h2 : startsWithStr (trimStr l) "<!-- Selector:" = false) :
    parseStep st l = st := by
  unfold parseStep
  have hf := startsWith_comment_not_fence h1
  simp only [h1, h2, hf, Bool.false_eq_true, if_false, Bool.not_true,
    Bool.and_false, ite_self]

theorem foldl_comments : ∀ (mid : List String) (st : PState),
    (∀ l ∈ mid, startsWithStr (trimStr l) "<!--" = true ∧
      startsWithStr (trimStr l) "<!-- Selector:" = false) →
    mid.foldl parseStep st = st := by
  intro mid
  induction mid with
  | nil => intro st _; rfl
  | cons l rest ih =>
    intro st h
    rw [List.foldl_cons,
      parseStep_comment st l (h l (by simp)).1 (h l (by simp)).2]
    exact ih st fun x hx => h x (by simp [hx])

/-! ## Claim C10: a marker with no accumulated lines emits no block -/

/-- C10: a provenance marker line followed only by comment lines up to the
next marker (or the end of file) produces no `SyncBlock` — the parser
pushes a block only when at least one line was accumulated — so the whole
parse equals the parse with the empty-bodied marker span removed, and the
corresponding element is never touched by reconciliation. -/
theorem c10_empty_marker_no_block (pre mid post : List String) (m : String)
    (hm : startsWithStr (trimStr m) "<!-- Selector:" = true)
    (hmid : ∀ l ∈ mid, startsWithStr (trimStr l) "<!--" = true ∧
      startsWithStr (trimStr l) "<!-- Selector:" = false)
    (hpost : ∀ l, post.head? = some l →
      startsWithStr (trimStr l) "<!-- Selector:" = true) :
    parseLines (pre ++ m :: (mid ++ post)) = parseLines (pre ++ post) := by
  unfold parseLines
  rw [List.foldl_append, List.foldl_append, List.foldl_cons,
    parseStep_marker _ m hm, List.foldl_append,
    foldl_comments mid _ hmid]
  cases post with
  | nil =>
    simp only [List.foldl_nil]
    rw [flushBlock_empty]
  | cons l rest =>
    have hl := hpost l rfl
    rw [List.foldl_cons, List.foldl_cons, parseStep_marker _ l hl,
      parseStep_marker _ l hl]
    rw [flushBlock_empty]

theorem c10_empty_marker_no_block_witness :
    parseLines (["intro"] ++ "<!-- Selector: main -->" ::
      (["<!-- note -->"] ++ ["<!-- Selector: p -->", "X"])) =
      parseLines (["intro"] ++ ["<!-- Selector: p -->", "X"]) :=
  c10_empty_marker_no_block ["intro"] ["<!-- note -->"]
    ["<!-- Selector: p -->", "X"] "<!-- Selector: main -->"
    (by decide) (by decide) (by decide)

/-! ## Lemmas: cleanupMarkdown scanners (claim C7) -/

/-- Lower-case ASCII letter. -/
def isLowerAlpha (c : Char) : Bool := 'a' ≤ c && c ≤ 'z'

theorem isLowerAlpha_ne {c x : Char} (h : isLowerAlpha c = true)
    (hx : isLowerAlpha x = false) : c ≠ x := by
  intro he
  rw [he] at h
  rw [h] at hx
  simp at hx

theorem isLowerAlpha_not_ws {c : Char} (h : isLowerAlpha c = true) :
    isWSChar c = false := by
  unfold isWSChar
  simp [isLowerAlpha_ne h (show isLowerAlpha ' ' = false by decide),
    isLowerAlpha_ne h (show isLowerAlpha '\t' = false by decide),
    isLowerAlpha_ne h (show isLowerAlpha '\n' = false by decide),
    isLowerAlpha_ne h (show isLowerAlpha '\r' = false by decide),
    isLowerAlpha_ne h (show isLowerAlpha '\x0b' = false by decide),
    isLowerAlpha_ne h (show isLowerAlpha '\x0c' = false by decide)]

theorem nlCount_cons (c : Char) (cs : List Char) :
    nlCount (c :: cs) = (if c = '\n' then 1 else 0) + nlCount cs := by
  unfold nlCount
  rw [List.countP_cons]
  by_cases h : c = '\n' <;> simp [h] <;> omega

theorem nlCount_append (a b : List Char) :
    nlCount (a ++ b) = nlCount a + nlCount b := by
  unfold nlCount
  rw [List.countP_append]

theorem nlCount_alpha {cs : List Char} (h : cs.all isLowerAlpha = true) :
    nlCount cs = 0 := by
  unfold nlCount
  rw [List.countP_eq_zero]
  intro c hc
  have := isLowerAlpha_ne (List.all_eq_true.mp h c hc)
    (show isLowerAlpha '\n' = false by decide)
  simpa using this

theorem flushRun_of_few {run : List Char} (h : nlCount run < 3) :
    flushRun run = run := by
  unfold flushRun
  rw [if_neg (by omega)]

theorem collapseGo_of_few : ∀ (cs run : List Char),
    nlCount run + nlCount cs < 3 → collapseGo run cs = run ++ cs := by
  intro cs
  induction cs with
  | nil =>
    intro run h
    unfold collapseGo
    rw [flushRun_of_few (by simpa [nlCount] using h)]
    simp
  | cons c cs' ih =>
    intro run h
    rw [nlCount_cons] at h
    unfold collapseGo
    have h0 : nlCount ([] : List Char) = 0 := rfl
    by_cases hw : isWSChar c = true
    · rw [if_pos hw, ih (run ++ [c])
        (by rw [nlCount_append, nlCount_cons, h0]; omega)]
      simp
    · rw [if_neg (by simp [hw]),
        flushRun_of_few (by omega), ih [] (by rw [h0]; omega)]
      simp

theorem collapseBlank_of_few {cs : List Char} (h : nlCount cs < 3) :
    collapseBlank cs = cs := by
  unfold collapseBlank
  rw [collapseGo_of_few cs [] (by simpa [nlCount] using h)]
  simp

theorem stripTrailGo_alpha_id : ∀ (td : List Char),
    td.all isLowerAlpha = true → stripTrailGo [] td = td := by
  intro td
  induction td with
  | nil => intro _; rfl
  | cons c td' ih =>
    intro h
    rw [List.all_cons, Bool.and_eq_true] at h
    unfold stripTrailGo
    rw [if_neg (by
        simp [isLowerAlpha_ne h.1 (show isLowerAlpha ' ' = false by decide),
          isLowerAlpha_ne h.1 (show isLowerAlpha '\t' = false by decide)]),
      if_neg (by
        simp [isLowerAlpha_ne h.1 (show isLowerAlpha '\n' = false by decide)])]
    rw [ih h.2]
    simp

theorem stripTrailGo_alpha_seg : ∀ (sd : List Char), sd.all isLowerAlpha = true →
    ∀ (buf ys : List Char), sd ≠ [] →
    stripTrailGo buf (sd ++ ys) = buf ++ sd ++ stripTrailGo [] ys := by
  intro sd
  induction sd with
  | nil => intro _ buf ys h; exact absurd rfl h
  | cons c sd' ih =>
    intro h buf ys _
    rw [List.all_cons, Bool.and_eq_true] at h
    rw [List.cons_append]
    generalize hz : stripTrailGo [] ys = z
    unfold stripTrailGo
    rw [if_neg (by
        simp [isLowerAlpha_ne h.1 (show isLowerAlpha ' ' = false by decide),
          isLowerAlpha_ne h.1 (show isLowerAlpha '\t' = false by decide)]),
      if_neg (by
        simp [isLowerAlpha_ne h.1 (show isLowerAlpha '\n' = false by decide)])]
    cases sd' with
    | nil =>
      simp only [List.nil_append]
      rw [hz]
      simp
    | cons d sd'' =>
      rw [ih h.2 [] ys (by simp), hz]
      simp

theorem nlHashLook_no_hash {cs : List Char} (h : '#' ∉ cs) :
    nlHashLook cs = false := by
  cases cs with
  | nil => rfl
  | cons c rest =>
    unfold nlHashLook
    by_cases hc : c = '\n'
    · cases rest with
      | nil => simp
      | cons r rest' =>
        have hr : r ≠ '#' := fun he => h (by simp [he])
        simp [List.takeWhile_cons, hr]
    · simp [hc]

/-! ## Lemmas: cleanupMarkdown composite stages and claim C7 -/

theorem alpha_not_mem {cs : List Char} (h : cs.all isLowerAlpha = true)
    {x : Char} (hx : isLowerAlpha x = false) : x ∉ cs := by
  intro hm
  have := List.all_eq_true.mp h x hm
  rw [hx] at this
  cases this

theorem headingGo_no_hash : ∀ {cs : List Char}, '#' ∉ cs →
    headingGo false cs = cs := by
  intro cs
  induction cs with
  | nil => intro _; rfl
  | cons c cs' ih =>
    intro h
    have h' : '#' ∉ cs' := fun hm => h (List.mem_cons_of_mem _ hm)
    unfold headingGo
    rw [nlHashLook_no_hash h']
    simp [ih h']

theorem dropWhile_alpha {cs : List Char} (h : cs.all isLowerAlpha = true) :
    cs.dropWhile isWSChar = cs := by
  cases cs with
  | nil => rfl
  | cons c cs' =>
    rw [List.all_cons, Bool.and_eq_true] at h
    rw [List.dropWhile_cons_of_neg]
    simp [isLowerAlpha_not_ws h.1]

theorem trimChars_alpha {cs : List Char} (h : cs.all isLowerAlpha = true) :
    trimChars cs = cs := by
  unfold trimChars
  rw [dropWhile_alpha h, dropWhile_alpha (by simpa using h), List.reverse_reverse]

theorem stg_emit {c : Char} (h1 : (c = ' ' || c = '\t') = false)
    (h2 : c ≠ '\n') (buf cs : List Char) :
    stripTrailGo buf (c :: cs) = buf ++ c :: stripTrailGo [] cs := by
  conv_lhs => unfold stripTrailGo
  simp only [h1, Bool.false_eq_true, if_false, if_neg h2]

theorem stg_ws {c : Char} (h : (c = ' ' || c = '\t') = true) (buf cs : List Char) :
    stripTrailGo buf (c :: cs) = stripTrailGo (buf ++ [c]) cs := by
  conv_lhs => unfold stripTrailGo
  simp only [h, if_true]

theorem stg_nl (buf cs : List Char) :
    stripTrailGo buf ('\n' :: cs) = '\n' :: stripTrailGo [] cs := by
  conv_lhs => unfold stripTrailGo
  simp

theorem rc_norm_nolt {c : Char} (h : c ≠ '<') (cs : List Char) :
    rcGo .norm (c :: cs) = c :: rcGo .norm cs := by
  conv_lhs => unfold rcGo
  simp [h]

theorem rc_norm_alpha : ∀ {cs : List Char}, cs.all isLowerAlpha = true →
    rcGo .norm cs = cs := by
  intro cs
  induction cs with
  | nil => intro _; rfl
  | cons c cs' ih =>
    intro h
    rw [List.all_cons, Bool.and_eq_true] at h
    rw [rc_norm_nolt (isLowerAlpha_ne h.1 (by decide)) cs', ih h.2]

theorem rc_norm_start {cs : List Char} (h : "!-- ".data.isPrefixOf cs = true) :
    rcGo .norm ('<' :: cs) = rcGo (.scan ['<']) cs := by
  conv_lhs => unfold rcGo
  simp [h]

theorem rc_scan_step {c : Char} (h : c ≠ '>') (buf cs : List Char) :
    rcGo (.scan buf) (c :: cs) = rcGo (.scan (buf ++ [c])) cs := by
  conv_lhs => unfold rcGo
  simp [h]

theorem rc_scan_alpha : ∀ (sd : List Char), sd.all isLowerAlpha = true →
    ∀ (buf ys : List Char),
    rcGo (.scan buf) (sd ++ ys) = rcGo (.scan (buf ++ sd)) ys := by
  intro sd
  induction sd with
  | nil => intro _ buf ys; simp
  | cons c sd' ih =>
    intro h buf ys
    rw [List.all_cons, Bool.and_eq_true] at h
    rw [List.cons_append, rc_scan_step (isLowerAlpha_ne h.1 (by decide)) buf (sd' ++ ys),
      ih h.2 (buf ++ [c]) ys]
    simp

theorem rc_scan_close {buf : List Char} (h8 : 8 ≤ buf.length + 1)
    (hsuf : " --".data.reverse.isPrefixOf buf.reverse = true) (cs : List Char) :
    rcGo (.scan buf) ('>' :: cs) = rcGo (.trail (buf ++ ['>']) []) cs := by
  have hsuf' : ['-', '-', ' '] <+: buf.reverse := by
    have := List.isPrefixOf_iff_prefix.mp hsuf
    simpa using this
  conv_lhs => unfold rcGo
  simp [hsuf', List.length_append, h8]

theorem rc_trail_ws {c : Char} (h : isWSChar c = true) (buf ws cs : List Char) :
    rcGo (.trail buf ws) (c :: cs) = rcGo (.trail buf (ws ++ [c])) cs := by
  conv_lhs => unfold rcGo
  simp [h]

theorem rc_trail_done {c : Char} (hws : isWSChar c = false)
    (buf ws cs : List Char) (hnl : ws.any (fun x => x = '\n') = true) :
    rcGo (.trail buf ws) (c :: cs) =
      ((ws.reverse.takeWhile fun x => x ≠ '\n').reverse) ++ c :: rcGo .norm cs := by
  conv_lhs => unfold rcGo
  simp [hws, hnl]

theorem rc_scan_no_gt : ∀ (sd : List Char), ('>' : Char) ∉ sd →
    ∀ (buf ys : List Char),
    rcGo (.scan buf) (sd ++ ys) = rcGo (.scan (buf ++ sd)) ys := by
  intro sd
  induction sd with
  | nil => intro _ buf ys; simp
  | cons c sd' ih =>
    intro h buf ys
    have hc : c ≠ '>' := fun he => h (by simp [he])
    rw [List.cons_append, rc_scan_step hc buf (sd' ++ ys),
      ih (fun hm => h (List.mem_cons_of_mem _ hm)) (buf ++ [c]) ys]
    simp

theorem rc_marker_any (body : List Char) (hbody : ('>' : Char) ∉ body)
    (c : Char) (hc : isWSChar c = false) (rest : List Char) :
    rcGo .norm ("<!-- ".data ++ (body ++ (" -->".data ++ '\n' :: c :: rest))) =
      c :: rcGo .norm rest := by
  have hA : "<!-- ".data = ['<', '!', '-', '-', ' '] := rfl
  have hM : " -->".data = [' ', '-', '-', '>'] := rfl
  rw [hA, hM]
  simp only [List.cons_append, List.nil_append]
  rw [rc_norm_start (by
    have hP : "!-- ".data = ['!', '-', '-', ' '] := rfl
    simp [hP, List.isPrefixOf])]
  simp [rcGo]
  rw [rc_scan_no_gt body hbody]
  simp [rcGo, show isWSChar '\n' = true from rfl, hc]

theorem rc_marker_eof (body : List Char) (hbody : ('>' : Char) ∉ body) :
    rcGo .norm ("<!-- ".data ++ (body ++ (" -->".data ++ ['\n']))) = [] := by
  have hA : "<!-- ".data = ['<', '!', '-', '-', ' '] := rfl
  have hM : " -->".data = [' ', '-', '-', '>'] := rfl
  rw [hA, hM]
  simp only [List.cons_append, List.nil_append]
  rw [rc_norm_start (by
    have hP : "!-- ".data = ['!', '-', '-', ' '] := rfl
    simp [hP, List.isPrefixOf])]
  simp [rcGo]
  rw [rc_scan_no_gt body hbody]
  simp [rcGo, show isWSChar '\n' = true from rfl]

theorem collapseGo_accum : ∀ (run' : List Char), run'.all isWSChar = true →
    ∀ (run0 : List Char) (c : Char), isWSChar c = false → ∀ (rest : List Char),
    collapseGo run0 (run' ++ c :: rest) =
      flushRun (run0 ++ run') ++ c :: collapseGo [] rest := by
  intro run'
  induction run' with
  | nil =>
    intro _ run0 c hc rest
    rw [List.nil_append]
    conv_lhs => unfold collapseGo
    simp [hc]
  | cons w run'' ih =>
    intro h run0 c hc rest
    rw [List.all_cons, Bool.and_eq_true] at h
    rw [List.cons_append]
    conv_lhs => unfold collapseGo
    rw [if_pos h.1, ih h.2 (run0 ++ [w]) c hc rest]
    simp

theorem nlCount_flushRun {run : List Char} (h3 : 3 ≤ nlCount run) :
    nlCount (flushRun run) = 2 := by
  unfold flushRun
  rw [if_pos h3, nlCount_append, nlCount_cons, nlCount_cons]
  have h1 : nlCount (run.takeWhile fun c => c ≠ '\n') = 0 := by
    unfold nlCount
    rw [List.countP_eq_zero]
    intro a ha
    have := List.mem_takeWhile_imp ha
    simpa using this
  have h2 : nlCount ((run.reverse.takeWhile fun c => c ≠ '\n').reverse) = 0 := by
    unfold nlCount
    rw [List.countP_eq_zero]
    intro a ha
    have := List.mem_takeWhile_imp (List.mem_reverse.mp ha)
    simpa using this
  rw [h1, h2]
  decide

theorem stripTrailGo_run : ∀ (tr : List Char),
    (tr.all fun x => x = ' ' || x = '\t') = true →
    ∀ (buf rest : List Char),
    stripTrailGo buf (tr ++ '\n' :: rest) = '\n' :: stripTrailGo [] rest := by
  intro tr
  induction tr with
  | nil => intro _ buf rest; rw [List.nil_append, stg_nl]
  | cons w tr' ih =>
    intro h buf rest
    rw [List.all_cons, Bool.and_eq_true] at h
    rw [List.cons_append, stg_ws h.1, ih h.2]

theorem stripTrailGo_all_ws : ∀ (tr : List Char),
    (tr.all fun x => x = ' ' || x = '\t') = true →
    ∀ (buf : List Char), stripTrailGo buf tr = [] := by
  intro tr
  induction tr with
  | nil => intro _ buf; rfl
  | cons w tr' ih =>
    intro h buf
    rw [List.all_cons, Bool.and_eq_true] at h
    rw [stg_ws h.1, ih h.2]

theorem strip_marker_id (sel text : List Char)
    (hs : sel.all isLowerAlpha = true) (hsne : sel ≠ [])
    (ht : text.all isLowerAlpha = true) :
    stripTrailGo [] ("<!-- Selector: ".data ++ (sel ++ (" -->\n".data ++ text))) =
      "<!-- Selector: ".data ++ (sel ++ (" -->\n".data ++ text)) := by
  have hA : "<!-- Selector: ".data =
      ['<','!','-','-',' ','S','e','l','e','c','t','o','r',':',' '] := rfl
  have hM : " -->\n".data = [' ','-','-','>','\n'] := rfl
  rw [hA, hM]
  simp only [List.cons_append, List.nil_append]
  simp [stripTrailGo]
  rw [stripTrailGo_alpha_seg sel hs _ _ hsne]
  simp [stripTrailGo]
  rw [stripTrailGo_alpha_id text ht]

theorem rc_marker (sel text : List Char)
    (hs : sel.all isLowerAlpha = true)
    (ht : text.all isLowerAlpha = true) (htne : text ≠ []) :
    rcGo .norm ("<!-- Selector: ".data ++ (sel ++ (" -->\n".data ++ text))) = text := by
  have hA : "<!-- Selector: ".data =
      ['<','!','-','-',' ','S','e','l','e','c','t','o','r',':',' '] := rfl
  have hM : " -->\n".data = [' ','-','-','>','\n'] := rfl
  rw [hA, hM]
  simp only [List.cons_append, List.nil_append]
  rw [rc_norm_start (by
    have hP : "!-- ".data = ['!','-','-',' '] := rfl
    simp [hP, List.isPrefixOf])]
  simp [rcGo]
  rw [rc_scan_alpha sel hs]
  simp [rcGo, isWSChar]
  cases text with
  | nil => exact absurd rfl htne
  | cons t text' =>
    rw [List.all_cons, Bool.and_eq_true] at ht
    rw [rc_trail_done (isLowerAlpha_not_ws ht.1) _ _ _ (by decide)]
    simp [rc_norm_alpha ht.2]

/-- C7 (amended): for every comment `<!-- body -->` whose body contains no
`>`, the cleanup's comment-removal pass deletes it whenever it is followed
by a newline — both mid-document (the following text, whatever it is,
is processed as if the comment were absent) and at end of input —
entirely regardless of whether the referenced unit's rendered text is
empty; every maximal whitespace run before a non-whitespace character is
rewritten by `flushRun`, which leaves exactly 2 newlines (one blank line)
in any run that had 3 or more; and every run of spaces and tabs before a
newline or at end of input is deleted. -/
theorem c7_cleanup_amended
    (body : List Char) (hbody : ('>' : Char) ∉ body)
    (c : Char) (hc : isWSChar c = false) (rest : List Char)
    (run : List Char) (hrun : run.all isWSChar = true) (hn3 : 3 ≤ nlCount run)
    (b2 : Char) (hb2 : isWSChar b2 = false) (rest2 : List Char)
    (tr : List Char) (htr : (tr.all fun x => x = ' ' || x = '\t') = true)
    (rest3 : List Char) :
    removeComments ("<!-- ".data ++ (body ++ (" -->".data ++ '\n' :: c :: rest))) =
      c :: removeComments rest ∧
    removeComments ("<!-- ".data ++ (body ++ (" -->".data ++ ['\n']))) = [] ∧
    collapseBlank (run ++ b2 :: rest2) =
      flushRun run ++ b2 :: collapseBlank rest2 ∧
    nlCount (flushRun run) = 2 ∧
    stripTrailing (tr ++ '\n' :: rest3) = '\n' :: stripTrailing rest3 ∧
    stripTrailing tr = [] := by
  refine ⟨rc_marker_any body hbody c hc rest, rc_marker_eof body hbody, ?_,
    nlCount_flushRun hn3, stripTrailGo_run tr htr [] rest3,
    stripTrailGo_all_ws tr htr []⟩
  unfold collapseBlank
  rw [collapseGo_accum run hrun [] b2 hb2 rest2, List.nil_append]


/-- C7 counterexample: the serializer cleanup removes the provenance
comment `<!-- Selector: p -->` even though the referenced unit's rendered
text `Hello` is non-empty, contradicting the claim that such a comment
survives cleanup whenever the unit's text is non-empty
(`/<!-- [^>]* -->\\s*\\n/g` deletes every metadata comment whose body
contains no `>`, with no reference to the unit's text). -/
theorem c7_counterexample :
    cleanupMarkdown "<!-- Selector: p -->\nHello" = "Hello" ∧
    ("Hello" : String) ≠ "" := ⟨by decide, by decide⟩

theorem c7_cleanup_amended_witness :
    removeComments ("<!-- ".data ++ ("Selector: p".data ++
        (" -->".data ++ '\n' :: 'H' :: "ello".data))) =
      'H' :: removeComments "ello".data ∧
    removeComments ("<!-- ".data ++ ("Selector: p".data ++ (" -->".data ++ ['\n']))) =
      [] ∧
    collapseBlank ("\n \n\t\n".data ++ 'b' :: "".data) =
      flushRun "\n \n\t\n".data ++ 'b' :: collapseBlank "".data ∧
    nlCount (flushRun "\n \n\t\n".data) = 2 ∧
    stripTrailing ([' ', ' ', '\t'] ++ '\n' :: "x".data) =
      '\n' :: stripTrailing "x".data ∧
    stripTrailing [' ', ' ', '\t'] = [] :=
  c7_cleanup_amended "Selector: p".data (by decide) 'H' (by decide) "ello".data
    "\n \n\t\n".data (by decide) (by decide) 'b' (by decide) "".data
    [' ', ' ', '\t'] (by decide) "x".data

/-! ## Lemmas: markdown round trip (claim C1) -/

def docC1 : Doc := ofList [el "html" []
  [el "head" [] [el "title" [] [.txt "T"]],
   el "body" [] [el "main" [] [el "ul" []
     [el "li" [] [.txt "A"], el "li" [] [.txt "B"]]]]]]

/-- C1 counterexample: for a document whose `main` area is a two-item list
(`<ul><li>A</li><li>B</li></ul>`), serializing the extracted content to
markdown and immediately reconciling the unedited text produces one change
record, not zero: the element's trimmed text is the concatenation `AB`
while the block's recomputed text is the comma-joined item list `A, B`. -/
theorem c1_counterexample :
    smartRoundTrip docC1 "https://e.com" "TS" "index.html" =
      [⟨"index.html", "main > ul", "AB", "A, B"⟩] := by decide

theorem splitOnChar_ne_nil (sep : Char) : ∀ cs, splitOnChar sep cs ≠ [] := by
  intro cs
  induction cs with
  | nil => simp [splitOnChar]
  | cons c cs' ih =>
    unfold splitOnChar
    cases h : splitOnChar sep cs' with
    | nil => simp
    | cons l ls => by_cases hc : c = sep <;> simp [hc]

theorem splitOnChar_no_sep {sep : Char} : ∀ {cs}, sep ∉ cs →
    splitOnChar sep cs = [cs] := by
  intro cs
  induction cs with
  | nil => intro _; rfl
  | cons c cs' ih =>
    intro h
    have hc : c ≠ sep := fun he => h (by simp [he])
    unfold splitOnChar
    rw [ih (fun hm => h (List.mem_cons_of_mem _ hm))]
    simp [hc]

theorem splitOnChar_append {sep : Char} : ∀ {xs : List Char} (ys), sep ∉ xs →
    splitOnChar sep (xs ++ sep :: ys) = xs :: splitOnChar sep ys := by
  intro xs
  induction xs with
  | nil =>
    intro ys _
    simp only [List.nil_append]
    conv_lhs => unfold splitOnChar
    cases h : splitOnChar sep ys with
    | nil => exact absurd h (splitOnChar_ne_nil sep ys)
    | cons l ls => simp
  | cons x xs' ih =>
    intro ys h
    have hx : x ≠ sep := fun he => h (by simp [he])
    rw [List.cons_append]
    conv_lhs => unfold splitOnChar
    rw [ih ys (fun hm => h (List.mem_cons_of_mem _ hm))]
    simp [hx]

theorem prefix_isPrefixOf {p l : List Char} (h : p <+: l) : p.isPrefixOf l = true :=
  List.isPrefixOf_iff_prefix.mpr h

theorem findSubAfter_of_pre {pat : List Char} (hne : pat ≠ [])
    {cs : List Char} (h : pat.isPrefixOf cs = true) :
    findSubAfter pat cs = some (cs.drop pat.length) := by
  cases cs with
  | nil =>
    cases pat with
    | nil => exact absurd rfl hne
    | cons p ps => simp [List.isPrefixOf] at h
  | cons c cs' =>
    unfold findSubAfter
    rw [if_pos h]

theorem matchSelector_marker (sel : String) (hsne : sel.data ≠ []) :
    matchSelectorComment ⟨"<!-- Selector: ".data ++ (sel.data ++ " -->".data)⟩ =
      some sel := by
  have h1 : findSubAfter "<!-- Selector: ".data
      ("<!-- Selector: ".data ++ (sel.data ++ " -->".data)) =
      some (sel.data ++ " -->".data) := by
    rw [findSubAfter_of_pre (by decide)
      (prefix_isPrefixOf (List.prefix_append _ _)), List.drop_left]
  have h2 : beforeLast " -->".data (sel.data ++ " -->".data) = some sel.data := by
    unfold beforeLast
    rw [List.reverse_append,
      findSubAfter_of_pre (by decide) (prefix_isPrefixOf (List.prefix_append _ _)),
      List.drop_left]
    simp
  have hd : (⟨"<!-- Selector: ".data ++ (sel.data ++ " -->".data)⟩ : String).data =
      "<!-- Selector: ".data ++ (sel.data ++ " -->".data) := rfl
  simp only [matchSelectorComment, hd, h1, h2, hsne]
  rfl

theorem startsWith_head_false {s pre : String} {c p : Char} {cs ps : List Char}
    (hs : s.data = c :: cs) (hp : pre.data = p :: ps) (hne : p ≠ c) :
    startsWithStr s pre = false := by
  unfold startsWithStr startsWithChars
  rw [hs, hp]
  simp [List.isPrefixOf, hne]

theorem trimChars_pad {c : Char} (cs : List Char) (hc : isWSChar c = false)
    {r : Char} {rs : List Char} (hrev : (c :: cs).reverse = r :: rs)
    (hr : isWSChar r = false) :
    trimChars ((c :: cs) ++ ['\n', '\n']) = c :: cs := by
  unfold trimChars
  rw [List.cons_append, List.dropWhile_cons_of_neg (by simp [hc]),
    show c :: (cs ++ ['\n', '\n']) = (c :: cs) ++ ['\n', '\n'] from by simp,
    List.reverse_append, hrev,
    show (['\n', '\n'] : List Char).reverse = ['\n', '\n'] from rfl,
    List.cons_append, List.cons_append, List.nil_append,
    List.dropWhile_cons_of_pos (by decide), List.dropWhile_cons_of_pos (by decide),
    List.dropWhile_cons_of_neg (by simp [hr]), ← hrev, List.reverse_reverse]

theorem trim_L1 (sel : String) :
    trimStr ⟨"<!-- Selector: ".data ++ (sel.data ++ " -->".data)⟩ =
      ⟨"<!-- Selector: ".data ++ (sel.data ++ " -->".data)⟩ := by
  unfold trimStr trimChars
  rw [show (⟨"<!-- Selector: ".data ++ (sel.data ++ " -->".data)⟩ : String).data =
    "<!-- Selector: ".data ++ (sel.data ++ " -->".data) from rfl]
  rw [show "<!-- Selector: ".data ++ (sel.data ++ " -->".data) =
    '<' :: ("!-- Selector: ".data ++ (sel.data ++ " -->".data)) from rfl]
  rw [List.dropWhile_cons_of_neg (by decide)]
  rw [show '<' :: ("!-- Selector: ".data ++ (sel.data ++ " -->".data)) =
    ('<' :: ("!-- Selector: ".data ++ (sel.data ++ " --".data))) ++ ['>'] from by simp]
  rw [List.reverse_append,
    show (['>'] : List Char).reverse = ['>'] from rfl, List.cons_append,
    List.nil_append, List.dropWhile_cons_of_neg (by decide)]
  congr 1
  simp

theorem splitLines_marker (sel body : String)
    (hnl_sel : ('\n' : Char) ∉ sel.data) (hnl_body : ('\n' : Char) ∉ body.data) :
    splitLinesStr ("<!-- Selector: " ++ sel ++ " -->\n" ++ (body ++ "\n\n")) =
      [⟨"<!-- Selector: ".data ++ (sel.data ++ " -->".data)⟩, body, "", ""] := by
  unfold splitLinesStr
  rw [show ("<!-- Selector: " ++ sel ++ " -->\n" ++ (body ++ "\n\n")).data =
    ("<!-- Selector: ".data ++ (sel.data ++ " -->".data)) ++ '\n' ::
      (body.data ++ '\n' :: '\n' :: []) from by
    simp [String.data_append]]
  rw [splitOnChar_append _ (by
    intro hm
    rcases List.mem_append.mp hm with h1 | h23
    · revert h1; decide
    · rcases List.mem_append.mp h23 with h2 | h3
      · exact hnl_sel h2
      · revert h3; decide)]
  rw [splitOnChar_append _ hnl_body,
    show ('\n' :: []) = ([] : List Char) ++ '\n' :: [] from rfl,
    splitOnChar_append _ (by simp)]
  rw [show splitOnChar '\n' [] = [[]] from rfl]
  simp

theorem trimStr_of_ends (s : String) {c : Char} {cs : List Char}
    (hb : s.data = c :: cs) (hc : isWSChar c = false)
    {r : Char} {rs : List Char} (hrev : (c :: cs).reverse = r :: rs)
    (hr : isWSChar r = false) : trimStr s = s := by
  unfold trimStr trimChars
  rw [hb, List.dropWhile_cons_of_neg (by simp [hc]), hrev,
    List.dropWhile_cons_of_neg (by simp [hr]), ← hrev, List.reverse_reverse]
  exact String.ext hb.symm

theorem reverse_head_of_ne {xs : List Char} (hx : xs ≠ []) (pre : List Char) :
    ∃ r rs, (pre ++ xs).reverse = r :: rs ∧ xs.getLast? = some r := by
  cases hrev : xs.reverse with
  | nil => exact absurd (by simpa using congrArg List.reverse hrev) hx
  | cons r rs =>
    refine ⟨r, rs ++ pre.reverse, ?_, ?_⟩
    · rw [List.reverse_append, hrev]; simp
    · rw [← List.head?_reverse, hrev]; rfl

theorem join_pad_data (body : String) :
    (joinWith "\n" [body, "", ""]).data = body.data ++ ['\n', '\n'] := by
  simp [joinWith, String.data_append,
    show ("\n" : String).data = ['\n'] from rfl,
    show ("" : String).data = ([] : List Char) from rfl]

theorem trim_join_pad (body : String) {c : Char} {cs : List Char}
    (hb : body.data = c :: cs) (hc : isWSChar c = false)
    {r : Char} {rs : List Char} (hrev : (c :: cs).reverse = r :: rs)
    (hr : isWSChar r = false) :
    trimStr (joinWith "\n" [body, "", ""]) = body := by
  unfold trimStr
  rw [join_pad_data, hb, trimChars_pad cs hc hrev hr]
  exact String.ext hb.symm

theorem detect_body_para (body : String) {c : Char} {cs : List Char}
    (hb : body.data = c :: cs)
    (h1 : c ≠ '#') (h2 : c ≠ '-') (h3 : c ≠ '*') (h4 : c ≠ '>') (h5 : c ≠ '`') :
    detectContentType [body, "", ""] = "paragraph" := by
  have hj : (joinWith "\n" [body, "", ""]).data = c :: (cs ++ ['\n', '\n']) := by
    rw [join_pad_data, hb]; rfl
  have hA := startsWith_head_false hj (show ("#" : String).data = '#' :: [] from rfl)
    (Ne.symm h1)
  have hB := startsWith_head_false hj (show ("- " : String).data = '-' :: [' '] from rfl)
    (Ne.symm h2)
  have hC := startsWith_head_false hj (show ("* " : String).data = '*' :: [' '] from rfl)
    (Ne.symm h3)
  have hD := startsWith_head_false hj (show ("> " : String).data = '>' :: [' '] from rfl)
    (Ne.symm h4)
  have hE := startsWith_head_false hj
    (show ("```" : String).data = '`' :: ['`', '`'] from rfl) (Ne.symm h5)
  simp [detectContentType, hA, hB, hC, hD, hE]

theorem detect_body_heading (body : String) {cs : List Char}
    (hb : body.data = '#' :: cs) :
    detectContentType [body, "", ""] = "heading" := by
  have hj : (joinWith "\n" [body, "", ""]).data = '#' :: (cs ++ ['\n', '\n']) := by
    rw [join_pad_data, hb]; rfl
  have hA : startsWithStr (joinWith "\n" [body, "", ""]) "#" = true := by
    unfold startsWithStr startsWithChars
    rw [hj]
    simp [List.isPrefixOf, show ("#" : String).data = ['#'] from rfl]
  simp [detectContentType, hA]

theorem startsWith_L1 (sel : String) :
    startsWithStr ⟨"<!-- Selector: ".data ++ (sel.data ++ " -->".data)⟩
      "<!-- Selector:" = true := by
  unfold startsWithStr startsWithChars
  exact prefix_isPrefixOf
    ((show "<!-- Selector:".data <+: "<!-- Selector: ".data by decide).trans
      (List.prefix_append _ _))

theorem dropWhile_hash_replicate (rest : List Char) : ∀ n,
    (List.replicate n '#' ++ rest).dropWhile (fun c => c = '#') =
      rest.dropWhile (fun c => c = '#') := by
  intro n
  induction n with
  | zero => rfl
  | succ m ih =>
    rw [List.replicate_succ, List.cons_append, List.dropWhile_cons_of_pos (by decide)]
    exact ih

theorem stripHeading_hashes (lvl : Nat) (text : String)
    (hhead : ∀ x ∈ text.data.head?, isWSChar x = false ∧ x ≠ '#') :
    stripHeading (hashes (lvl + 1) ++ " " ++ text) = text := by
  have hd : (hashes (lvl + 1) ++ " " ++ text).data =
      '#' :: (List.replicate lvl '#' ++ (' ' :: text.data)) := by
    simp [hashes, String.data_append, List.replicate_succ,
      show (" " : String).data = [' '] from rfl]
  have hdw : text.data.dropWhile isWSChar = text.data := by
    cases hx : text.data with
    | nil => rfl
    | cons t td =>
      exact List.dropWhile_cons_of_neg (by
        simp [(hhead t (by rw [hx]; rfl)).1])
  unfold stripHeading
  rw [hd]
  rw [List.dropWhile_cons_of_pos (by decide), dropWhile_hash_replicate,
    List.dropWhile_cons_of_neg (by decide), List.dropWhile_cons_of_pos (by decide),
    hdw]
  rfl

theorem updateHtmlElement_noop (d : Doc) (b : SyncBlock) (file : String)
    (hb : trimStr (joinWith "" ((queryAll d b.selector).map fun p => textAt d p)) =
      convertMarkdownToText b.content b.btype) :
    updateHtmlElement d b file = (d, none) := by
  unfold updateHtmlElement
  by_cases hps : queryAll d b.selector = []
  · simp [hps]
  · simp [hps, hb]

theorem parseLines_marker (sel body btype : String)
    (hsne : sel.data ≠ [])
    (htr : trimStr body = body)
    (hS1 : startsWithStr body "<!-- Selector:" = false)
    (hS2 : startsWithStr body "<!-- Content extracted from:" = false)
    (hS3 : startsWithStr body "<!-- Extracted at:" = false)
    (hS4 : startsWithStr body "<!-- Method:" = false)
    (hS5 : startsWithStr body "```" = false)
    (hS6 : startsWithStr body "<!--" = false)
    (hjoin : trimStr (joinWith "\n" [body, "", ""]) = body)
    (hdet : detectContentType [body, "", ""] = btype) :
    parseLines [⟨"<!-- Selector: ".data ++ (sel.data ++ " -->".data)⟩, body, "", ""] =
      [⟨sel, body, btype⟩] := by
  have hst1 : parseStep ⟨none, [], false, []⟩
      ⟨"<!-- Selector: ".data ++ (sel.data ++ " -->".data)⟩ =
      ⟨some sel, [], false, []⟩ := by
    unfold parseStep
    rw [trim_L1 sel, if_pos (startsWith_L1 sel), matchSelector_marker sel hsne]
    rfl
  have hst2 : parseStep ⟨some sel, [], false, []⟩ body =
      ⟨some sel, [body], false, []⟩ := by
    simp [parseStep, htr, hS1, hS2, hS3, hS4, hS5, hS6]
  have e1 : startsWithStr "" "<!-- Selector:" = false := by decide
  have e2 : startsWithStr "" "<!-- Content extracted from:" = false := by decide
  have e3 : startsWithStr "" "<!-- Extracted at:" = false := by decide
  have e4 : startsWithStr "" "<!-- Method:" = false := by decide
  have e5 : startsWithStr "" "```" = false := by decide
  have e6 : startsWithStr "" "<!--" = false := by decide
  have htr0 : trimStr "" = "" := rfl
  have hemp1 : parseStep ⟨some sel, [body], false, []⟩ "" =
      ⟨some sel, [body, ""], false, []⟩ := by
    simp [parseStep, htr0, e1, e2, e3, e4, e5, e6]
  have hemp2 : parseStep ⟨some sel, [body, ""], false, []⟩ "" =
      ⟨some sel, [body, "", ""], false, []⟩ := by
    simp [parseStep, htr0, e1, e2, e3, e4, e5, e6]
  unfold parseLines
  rw [List.foldl_cons, hst1, List.foldl_cons, hst2, List.foldl_cons, hemp1,
    List.foldl_cons, hemp2, List.foldl_nil]
  unfold flushBlock
  simp [hjoin, hdet]

theorem para_block (sel text : String)
    (hsnl : ('\n' : Char) ∉ sel.data) (hsne : sel.data ≠ [])
    (htne : text.data ≠ []) (htnl : ('\n' : Char) ∉ text.data)
    (hhead : ∀ x ∈ text.data.head?, isWSChar x = false ∧ x ≠ '#' ∧ x ≠ '-' ∧
      x ≠ '*' ∧ x ≠ '>' ∧ x ≠ '`' ∧ x ≠ '<')
    (hlast : ∀ x ∈ text.data.getLast?, isWSChar x = false) :
    parseMarkdownContent ("<!-- Selector: " ++ sel ++ " -->\n" ++ (text ++ "\n\n")) =
      [⟨sel, text, "paragraph"⟩] := by
  obtain ⟨t, td, hb⟩ : ∃ t td, text.data = t :: td := by
    cases hx : text.data with
    | nil => exact absurd hx htne
    | cons a b => exact ⟨a, b, rfl⟩
  obtain ⟨hws, hsharp, hdash, hstar, hgt, hbt2, hlt⟩ := hhead t (by rw [hb]; rfl)
  obtain ⟨r, rs, hrev0, hrg⟩ := reverse_head_of_ne htne ([] : List Char)
  rw [List.nil_append, hb] at hrev0
  have hr : isWSChar r = false := hlast r hrg
  have htr : trimStr text = text := trimStr_of_ends text hb hws hrev0 hr
  have hjoin : trimStr (joinWith "\n" [text, "", ""]) = text :=
    trim_join_pad text hb hws hrev0 hr
  have hdet : detectContentType [text, "", ""] = "paragraph" :=
    detect_body_para text hb hsharp hdash hstar hgt hbt2
  have hS1 := startsWith_head_false hb
    (show ("<!-- Selector:" : String).data = '<' :: "!-- Selector:".data from rfl)
    (Ne.symm hlt)
  have hS2 := startsWith_head_false hb
    (show ("<!-- Content extracted from:" : String).data =
      '<' :: "!-- Content extracted from:".data from rfl) (Ne.symm hlt)
  have hS3 := startsWith_head_false hb
    (show ("<!-- Extracted at:" : String).data = '<' :: "!-- Extracted at:".data
      from rfl) (Ne.symm hlt)
  have hS4 := startsWith_head_false hb
    (show ("<!-- Method:" : String).data = '<' :: "!-- Method:".data from rfl)
    (Ne.symm hlt)
  have hS5 := startsWith_head_false hb
    (show ("```" : String).data = '`' :: "``".data from rfl) (Ne.symm hbt2)
  have hS6 := startsWith_head_false hb
    (show ("<!--" : String).data = '<' :: "!--".data from rfl) (Ne.symm hlt)
  unfold parseMarkdownContent
  rw [splitLines_marker sel text hsnl htnl]
  exact parseLines_marker sel text "paragraph" hsne htr hS1 hS2 hS3 hS4 hS5 hS6
    hjoin hdet

theorem heading_block (sel text : String) (lvl : Nat)
    (hsnl : ('\n' : Char) ∉ sel.data) (hsne : sel.data ≠ [])
    (htne : text.data ≠ []) (htnl : ('\n' : Char) ∉ text.data)
    (hlast : ∀ x ∈ text.data.getLast?, isWSChar x = false) :
    parseMarkdownContent ("<!-- Selector: " ++ sel ++ " -->\n" ++
        ((hashes (lvl + 1) ++ " " ++ text) ++ "\n\n")) =
      [⟨sel, hashes (lvl + 1) ++ " " ++ text, "heading"⟩] := by
  have hbd : (hashes (lvl + 1) ++ " " ++ text).data =
      '#' :: (List.replicate lvl '#' ++ (' ' :: text.data)) := by
    simp [hashes, String.data_append, List.replicate_succ,
      show (" " : String).data = [' '] from rfl]
  obtain ⟨r, rs, hrev0, hrg⟩ :=
    reverse_head_of_ne htne ('#' :: (List.replicate lvl '#' ++ [' ']))
  have hsh : ('#' :: (List.replicate lvl '#' ++ [' '])) ++ text.data =
      '#' :: (List.replicate lvl '#' ++ (' ' :: text.data)) := by simp
  rw [hsh] at hrev0
  have hr : isWSChar r = false := hlast r hrg
  have htrb := trimStr_of_ends _ hbd (by decide) hrev0 hr
  have hjoin := trim_join_pad _ hbd (by decide) hrev0 hr
  have hdet := detect_body_heading _ hbd
  have hS1 := startsWith_head_false hbd
    (show ("<!-- Selector:" : String).data = '<' :: "!-- Selector:".data from rfl)
    (by decide)
  have hS2 := startsWith_head_false hbd
    (show ("<!-- Content extracted from:" : String).data =
      '<' :: "!-- Content extracted from:".data from rfl) (by decide)
  have hS3 := startsWith_head_false hbd
    (show ("<!-- Extracted at:" : String).data = '<' :: "!-- Extracted at:".data
      from rfl) (by decide)
  have hS4 := startsWith_head_false hbd
    (show ("<!-- Method:" : String).data = '<' :: "!-- Method:".data from rfl)
    (by decide)
  have hS5 := startsWith_head_false hbd
    (show ("```" : String).data = '`' :: "``".data from rfl) (by decide)
  have hS6 := startsWith_head_false hbd
    (show ("<!--" : String).data = '<' :: "!--".data from rfl) (by decide)
  have hnl_body : ('\n' : Char) ∉ (hashes (lvl + 1) ++ " " ++ text).data := by
    rw [hbd]
    intro hm
    rw [List.mem_cons] at hm
    rcases hm with h0 | hm
    · exact absurd h0 (by decide)
    · rcases List.mem_append.mp hm with h1 | h2
      · exact absurd (List.eq_of_mem_replicate h1) (by decide)
      · rw [List.mem_cons] at h2
        rcases h2 with h3 | h4
        · exact absurd h3 (by decide)
        · exact htnl h4
  unfold parseMarkdownContent
  rw [splitLines_marker sel (hashes (lvl + 1) ++ " " ++ text) hsnl hnl_body]
  exact parseLines_marker sel _ "heading" hsne htrb hS1 hS2 hS3 hS4 hS5 hS6
    hjoin hdet

/-- C1 (amended): the serialize-reconcile round trip is a no-op for
paragraph and heading units over any non-empty selector without a newline
(e.g. `main > ul`) and any non-empty single-line text whose first
character is not whitespace, not a markdown marker (`#`, `-`, `*`,
`>`, backtick) and not `<`, and whose last character is not whitespace
(i.e. trimmed marker-free text such as `hello world`): the serialized
block re-parses to exactly one SyncBlock whose recomputed text equals the
original text, and any block whose recomputed text equals the element's
current trimmed text yields no change record and leaves the document
untouched; the round trip is NOT a no-op for multi-item lists, whose
recomputed comma-joined text differs from the element's concatenated
text. -/
theorem c1_roundtrip_amended (sel text : String) (lvl : Nat)
    (hsnl : ('\n' : Char) ∉ sel.data) (hsne : sel.data ≠ [])
    (htne : text.data ≠ []) (htnl : ('\n' : Char) ∉ text.data)
    (hhead : ∀ x ∈ text.data.head?, isWSChar x = false ∧ x ≠ '#' ∧ x ≠ '-' ∧
      x ≠ '*' ∧ x ≠ '>' ∧ x ≠ '`' ∧ x ≠ '<')
    (hlast : ∀ x ∈ text.data.getLast?, isWSChar x = false)
    (d : Doc) (b : SyncBlock) (file : String)
    (hb : trimStr (joinWith "" ((queryAll d b.selector).map fun p => textAt d p)) =
      convertMarkdownToText b.content b.btype) :
    parseMarkdownContent (itemMarkdown ⟨"paragraph", 0, text, [], "p", sel⟩) =
      [⟨sel, text, "paragraph"⟩] ∧
    convertMarkdownToText text "paragraph" = text ∧
    parseMarkdownContent (itemMarkdown ⟨"heading", lvl + 1, text, [], "h2", sel⟩) =
      [⟨sel, hashes (lvl + 1) ++ " " ++ text, "heading"⟩] ∧
    convertMarkdownToText (hashes (lvl + 1) ++ " " ++ text) "heading" = text ∧
    updateHtmlElement d b file = (d, none) := by
  have hsne' : sel ≠ "" := fun he => hsne (by rw [he])
  have him1 : itemMarkdown ⟨"paragraph", 0, text, [], "p", sel⟩ =
      "<!-- Selector: " ++ sel ++ " -->\n" ++ (text ++ "\n\n") := by
    simp [itemMarkdown, hsne']
  have him2 : itemMarkdown ⟨"heading", lvl + 1, text, [], "h2", sel⟩ =
      "<!-- Selector: " ++ sel ++ " -->\n" ++
        ((hashes (lvl + 1) ++ " " ++ text) ++ "\n\n") := by
    simp [itemMarkdown, hsne']
  refine ⟨?_, ?_, ?_, ?_, ?_⟩
  · rw [him1]; exact para_block sel text hsnl hsne htne htnl hhead hlast
  · rfl
  · rw [him2]; exact heading_block sel text lvl hsnl hsne htne htnl hlast
  · unfold convertMarkdownToText
    rw [if_pos rfl]
    exact stripHeading_hashes lvl text (fun x hx => ⟨(hhead x hx).1, (hhead x hx).2.1⟩)
  · exact updateHtmlElement_noop d b file hb

theorem c1_roundtrip_amended_witness :
    parseMarkdownContent
        (itemMarkdown ⟨"paragraph", 0, "hello world", [], "p", "main > ul"⟩) =
      [⟨"main > ul", "hello world", "paragraph"⟩] ∧
    convertMarkdownToText "hello world" "paragraph" = "hello world" ∧
    parseMarkdownContent
        (itemMarkdown ⟨"heading", 0 + 1, "hello world", [], "h2", "main > ul"⟩) =
      [⟨"main > ul", hashes (0 + 1) ++ " " ++ "hello world", "heading"⟩] ∧
    convertMarkdownToText (hashes (0 + 1) ++ " " ++ "hello world") "heading" =
      "hello world" ∧
    updateHtmlElement (ofList [el "p" [] [.txt "x"]]) ⟨"p", "x", "paragraph"⟩
      "f.html" = (ofList [el "p" [] [.txt "x"]], none) :=
  c1_roundtrip_amended "main > ul" "hello world" 0 (by decide) (by decide) (by decide) (by decide)
    (by decide) (by decide)
    (ofList [el "p" [] [.txt "x"]]) ⟨"p", "x", "paragraph"⟩ "f.html" (by decide)

end ContentSync
